import Mathlib

/-!
Verification of the Quickwit indexing workbench state machine
(`quickwit-indexing/src/actors/indexer.rs`) and of the leaf-search
pruning/merge logic (`quickwit-search/src/leaf.rs`), as a shallow
embedding in Lean 4.

Conventions:
* `u64` counters are modelled as `Nat` (they are only incremented by small
  amounts, far from overflow, and no claim depends on wrap-around).
* `i64` timestamps are modelled as `Int`; Rust `/` on `i64` (truncation
  toward zero) is `Int.tdiv`.
* Fallible Rust code returning `anyhow::Result` is modelled with `Except`.
* External effects (tantivy writer, metastore, actor mailboxes) are modelled
  as explicit inputs/outputs: the tantivy memory usage deltas are carried on
  each document, and messages sent to the `IndexSerializer` mailbox are
  returned as a list.
-/

namespace Quickwit

/-! ## Checkpoint deltas

`SourceCheckpointDelta` lives in `quickwit-metastore` (not part of the
sources under verification); it is modelled from the spec. -/

/-- Modelled from the spec: a per-partition position advancement, i.e. a
(previous position, new position) pair. Partition ids and positions are
modelled as `Nat`. -/
structure PartitionDelta where
  fromPos : Nat
  toPos : Nat
  deriving DecidableEq

/-- Modelled from the spec: `SourceCheckpointDelta` (from
`quickwit-metastore`, whose sources are not under verification) is a mapping
from partition id to a `PartitionDelta`, modelled as an association list. -/
abbrev SourceCheckpointDelta := List (Nat × PartitionDelta)

/-- First-match lookup in an association list keyed by `Nat`. -/
def lookupAssoc {α : Type} : List (Nat × α) → Nat → Option α
  | [], _ => none
  | (k', v) :: rest, k => if k' = k then some v else lookupAssoc rest k

/-- Replace the value of the first entry with the given key. -/
def updateAssoc {α : Type} : List (Nat × α) → Nat → α → List (Nat × α)
  | [], _, _ => []
  | (k', v') :: rest, k, v =>
    if k' = k then (k', v) :: rest else (k', v') :: updateAssoc rest k v

/-- The error message used when a batch delta does not chain. -/
def chainErrorMsg : String := "batch delta does not follow indexer checkpoint"

/-- Modelled from the spec: `SourceCheckpointDelta::extend`. Each partition
delta of the batch must chain onto the pending delta: if the partition is
already tracked, the batch's `fromPos` must equal the tracked `toPos`
(no gap, no backward move), and the tracked interval is extended to the
batch's `toPos`; a fresh partition is inserted as is. A non-chaining entry
fails loudly. -/
def SourceCheckpointDelta.extend :
    SourceCheckpointDelta → SourceCheckpointDelta → Except String SourceCheckpointDelta
  | d, [] => .ok d
  | d, (p, pd) :: rest =>
    match lookupAssoc d p with
    | some cur =>
      if cur.toPos = pd.fromPos then
        SourceCheckpointDelta.extend
          (updateAssoc d p { fromPos := cur.fromPos, toPos := pd.toPos }) rest
      else .error chainErrorMsg
    | none => SourceCheckpointDelta.extend (d ++ [(p, pd)]) rest

/-- The union of two checkpoint deltas, following the spec's wording: for a
partition present in both deltas the union spans from the pending delta's
`fromPos` to the batch delta's `toPos`; a partition present in only one
delta keeps its interval. -/
def mergeOnePartition (d : SourceCheckpointDelta) (entry : Nat × PartitionDelta) :
    SourceCheckpointDelta :=
  match lookupAssoc d entry.1 with
  | some cur => updateAssoc d entry.1 { fromPos := cur.fromPos, toPos := entry.2.toPos }
  | none => d ++ [entry]

/-- Union of a pending checkpoint delta and a batch delta (see
`mergeOnePartition`). -/
def deltaUnion (d batch : SourceCheckpointDelta) : SourceCheckpointDelta :=
  batch.foldl mergeOnePartition d

/-! ## Documents, splits and the workbench (`actors/indexer.rs`) -/

/-- `OTHER_PARTITION_ID` from `actors/indexer.rs`: the partition id used to
gather partitions exceeding the maximum number of partitions. -/
def OTHER_PARTITION_ID : Nat := 3264326757911759461

/-- A processed document, as received by the `Indexer` actor. The tantivy
memory-usage delta reported by the index writer when the document is added
(`mem_usage_after - mem_usage_before`) is an external measurement; it is
carried on the document. -/
structure ProcessedDoc where
  partition : Nat
  numBytes : Nat
  timestampOpt : Option Int
  memDelta : Nat
  deriving DecidableEq

/-- A processed document batch: documents, a checkpoint delta and a
force-commit flag. -/
structure ProcessedDocBatch where
  docs : List ProcessedDoc
  checkpointDelta : SourceCheckpointDelta
  forceCommit : Bool
  deriving DecidableEq

/-- The additively-updated attributes of a split under construction. -/
structure SplitAttrs where
  partitionId : Nat
  numDocs : Nat
  uncompressedDocsSizeInBytes : Nat
  timeRange : Option (Int × Int)
  deleteOpstamp : Nat
  deriving DecidableEq

/-- A split builder: in the embedding only the split attributes are kept
(the tantivy writer itself is external). -/
structure IndexedSplitBuilder where
  splitAttrs : SplitAttrs
  deriving DecidableEq

/-- `record_timestamp` from `actors/indexer.rs`: widen the inclusive time
range to contain the new timestamp. -/
def record_timestamp (timestamp : Int) (timeRange : Option (Int × Int)) :
    Option (Int × Int) :=
  match timeRange with
  | some (s, e) => some (min timestamp s, max timestamp e)
  | none => some (timestamp, timestamp)

/-- The per-document additive update of a split builder's attributes
(lines 312-315 of `actors/indexer.rs`). -/
def addDocToBuilder (b : IndexedSplitBuilder) (doc : ProcessedDoc) : IndexedSplitBuilder :=
  { splitAttrs :=
    { b.splitAttrs with
      uncompressedDocsSizeInBytes :=
        b.splitAttrs.uncompressedDocsSizeInBytes + doc.numBytes
      numDocs := b.splitAttrs.numDocs + 1
      timeRange :=
        match doc.timestampOpt with
        | some ts => record_timestamp ts b.splitAttrs.timeRange
        | none => b.splitAttrs.timeRange } }

/-- A fresh split builder for a partition (`create_indexed_split_builder`). -/
def newSplitBuilder (partitionId lastDeleteOpstamp : Nat) : IndexedSplitBuilder :=
  { splitAttrs :=
    { partitionId := partitionId
      numDocs := 0
      uncompressedDocsSizeInBytes := 0
      timeRange := none
      deleteOpstamp := lastDeleteOpstamp } }

/-- The indexing workbench (`IndexingWorkbench`): the active split builders
keyed by partition id, the optional overflow builder, the pending checkpoint
delta and the tantivy memory usage. Spans, permits and the publish token are
omitted (the publish lock's liveness is tracked on the indexer state, since
the workbench always holds a clone of the indexer's current lock). -/
structure IndexingWorkbench where
  indexedSplits : List (Nat × IndexedSplitBuilder)
  otherIndexedSplitOpt : Option IndexedSplitBuilder
  checkpointDelta : SourceCheckpointDelta
  memoryUsage : Nat
  lastDeleteOpstamp : Nat
  deriving DecidableEq

/-- The observable counters of the `Indexer` actor (`IndexerCounters`);
`pipeline_metrics_opt` is omitted (purely observational). -/
structure IndexerCounters where
  numSplitsEmitted : Nat
  numSplitBatchesEmitted : Nat
  numDocsInWorkbench : Nat
  deriving DecidableEq

/-- The configuration the indexer reads: `split_num_docs_target`, the heap
budget, `max_num_partitions` (a `NonZeroU32`) and the last delete opstamp
returned by the metastore at workbench creation. -/
structure IndexerConfig where
  splitNumDocsTarget : Nat
  heapSize : Nat
  maxNumPartitions : Nat
  lastDeleteOpstamp : Nat
  deriving DecidableEq

/-- The mutable state of the `Indexer` actor: the optional workbench, the
counters and the liveness of the current publish lock (`is_dead`). -/
structure Indexer where
  workbenchOpt : Option IndexingWorkbench
  counters : IndexerCounters
  publishLockDead : Bool
  deriving DecidableEq

/-- A fresh workbench (`create_workbench`). -/
def emptyWorkbench (cfg : IndexerConfig) : IndexingWorkbench :=
  { indexedSplits := []
    otherIndexedSplitOpt := none
    checkpointDelta := []
    memoryUsage := 0
    lastDeleteOpstamp := cfg.lastDeleteOpstamp }

/-- The initial state of a freshly spawned `Indexer`. -/
def Indexer.initial : Indexer :=
  { workbenchOpt := none
    counters := { numSplitsEmitted := 0, numSplitBatchesEmitted := 0, numDocsInWorkbench := 0 }
    publishLockDead := false }

/-- `IndexerState::get_or_create_workbench`: the current workbench, lazily
created on the first message of a cycle. -/
def Indexer.get_or_create_workbench (cfg : IndexerConfig) (st : Indexer) :
    IndexingWorkbench :=
  st.workbenchOpt.getD (emptyWorkbench cfg)

/-- `IndexerState::get_or_create_indexed_split` together with the
per-document attribute updates of `IndexerState::index_batch`: route the
document to the builder of its partition, creating it if the partition is
new; once `max_num_partitions` builders exist, a document of a fresh
partition goes to the shared overflow builder with `OTHER_PARTITION_ID`. -/
def processDoc (cfg : IndexerConfig) (wb : IndexingWorkbench) (doc : ProcessedDoc) :
    IndexingWorkbench :=
  match lookupAssoc wb.indexedSplits doc.partition with
  | some b =>
    { wb with
      indexedSplits := updateAssoc wb.indexedSplits doc.partition (addDocToBuilder b doc)
      memoryUsage := wb.memoryUsage + doc.memDelta }
  | none =>
    if cfg.maxNumPartitions ≤ wb.indexedSplits.length then
      let ob := wb.otherIndexedSplitOpt.getD
        (newSplitBuilder OTHER_PARTITION_ID wb.lastDeleteOpstamp)
      { wb with
        otherIndexedSplitOpt := some (addDocToBuilder ob doc)
        memoryUsage := wb.memoryUsage + doc.memDelta }
    else
      { wb with
        indexedSplits := wb.indexedSplits ++
          [(doc.partition, addDocToBuilder (newSplitBuilder doc.partition wb.lastDeleteOpstamp) doc)]
        memoryUsage := wb.memoryUsage + doc.memDelta }

/-- The document loop of `IndexerState::index_batch`: each document bumps
`num_docs_in_workbench` and is routed into the workbench. -/
def processDocs (cfg : IndexerConfig) :
    IndexingWorkbench → IndexerCounters → List ProcessedDoc →
    IndexingWorkbench × IndexerCounters
  | wb, c, [] => (wb, c)
  | wb, c, doc :: rest =>
    processDocs cfg (processDoc cfg wb doc)
      { c with numDocsInWorkbench := c.numDocsInWorkbench + 1 } rest

/-- `IndexerState::index_batch`: get or create the workbench; if the publish
lock is dead, drop the workbench and succeed without doing anything else;
otherwise extend the pending checkpoint delta by the batch's delta (failing
loudly if it does not chain) and only then add the batch's documents. -/
def IndexerState.index_batch (cfg : IndexerConfig) (st : Indexer)
    (batch : ProcessedDocBatch) : Except String Indexer :=
  let wb := Indexer.get_or_create_workbench cfg st
  if st.publishLockDead then
    .ok { st with workbenchOpt := none }
  else
    match SourceCheckpointDelta.extend wb.checkpointDelta batch.checkpointDelta with
    | .error e => .error e
    | .ok delta' =>
      let (wb', counters') :=
        processDocs cfg { wb with checkpointDelta := delta' } st.counters batch.docs
      .ok { st with workbenchOpt := some wb', counters := counters' }

/-- A message sent to the `IndexSerializer` mailbox: either a sealed split
batch (`IndexedSplitBatchBuilder`; the publish lock/token and spans are
omitted) or a checkpoint-only `EmptySplit` update. -/
inductive CommitTrigger
  | timeout
  | noMoreDocs
  | forceCommit
  | memoryLimit
  | numDocsLimit
  | drained
  deriving DecidableEq

inductive SerializerMsg
  | splitBatch (splits : List IndexedSplitBuilder)
      (checkpointDelta : SourceCheckpointDelta) (trigger : CommitTrigger)
  | emptySplit (checkpointDelta : SourceCheckpointDelta)
  deriving DecidableEq

/-- `Indexer::memory_usage`. -/
def Indexer.memory_usage (st : Indexer) : Nat :=
  match st.workbenchOpt with
  | some wb => wb.memoryUsage
  | none => 0

/-- `Indexer::send_to_serializer`: take the workbench (a no-op if there is
none); if it holds no split, forward a checkpoint-only `EmptySplit` update
when the pending delta is non-empty; otherwise emit the sealed split batch
and reset `num_docs_in_workbench`. -/
def Indexer.send_to_serializer (st : Indexer) (trigger : CommitTrigger) :
    Indexer × List SerializerMsg :=
  match st.workbenchOpt with
  | none => (st, [])
  | some wb =>
    let splits := wb.indexedSplits.map Prod.snd ++ wb.otherIndexedSplitOpt.toList
    let st' := { st with workbenchOpt := none }
    if splits.isEmpty then
      if wb.checkpointDelta.isEmpty then (st', [])
      else (st', [SerializerMsg.emptySplit wb.checkpointDelta])
    else
      ({ st' with counters :=
          { numDocsInWorkbench := 0
            numSplitsEmitted := st.counters.numSplitsEmitted + splits.length
            numSplitBatchesEmitted := st.counters.numSplitBatchesEmitted + 1 } },
       [SerializerMsg.splitBatch splits wb.checkpointDelta trigger])

/-- The commit-trigger block at the end of `Indexer::index_batch`: fire the
`MemoryLimit`, `NumDocsLimit` and `ForceCommit` commit triggers in this
order, each when its condition holds. -/
def Indexer.commit_triggers (cfg : IndexerConfig) (st1 : Indexer)
    (forceCommit : Bool) : Indexer × List SerializerMsg :=
  let r1 :=
    if cfg.heapSize ≤ st1.memory_usage then st1.send_to_serializer .memoryLimit
    else (st1, [])
  let r2 :=
    if cfg.splitNumDocsTarget ≤ r1.1.counters.numDocsInWorkbench then
      r1.1.send_to_serializer .numDocsLimit
    else (r1.1, [])
  let r3 :=
    if forceCommit then r2.1.send_to_serializer .forceCommit
    else (r2.1, [])
  (r3.1, r1.2 ++ r2.2 ++ r3.2)

/-- `Indexer::index_batch` (the `ProcessedDocBatch` handler): index the
batch, then run the commit-trigger block. -/
def Indexer.index_batch (cfg : IndexerConfig) (st : Indexer)
    (batch : ProcessedDocBatch) : Except String (Indexer × List SerializerMsg) :=
  match IndexerState.index_batch cfg st batch with
  | .error e => .error e
  | .ok st1 => .ok (Indexer.commit_triggers cfg st1 batch.forceCommit)

/-- The `NewPublishLock` handler: drop the workbench (without emitting
anything) and install the new lock. -/
def Indexer.handle_new_publish_lock (st : Indexer) (newLockDead : Bool) :
    Indexer × List SerializerMsg :=
  ({ st with workbenchOpt := none, publishLockDead := newLockDead }, [])

/-- Run the indexer over a sequence of document batches, collecting the
messages sent to the serializer. -/
def Indexer.runBatches (cfg : IndexerConfig) :
    Indexer → List ProcessedDocBatch → Except String (Indexer × List SerializerMsg)
  | st, [] => .ok (st, [])
  | st, b :: rest =>
    match Indexer.index_batch cfg st b with
    | .error e => .error e
    | .ok (st1, msgs) =>
      match Indexer.runBatches cfg st1 rest with
      | .error e => .error e
      | .ok (st2, msgsRest) => .ok (st2, msgs ++ msgsRest)

/-! ## Leaf search (`quickwit-search/src/leaf.rs`) -/

/-- `i64::MIN`. -/
def i64Min : Int := -9223372036854775808

/-- `i64::MAX`. -/
def i64Max : Int := 9223372036854775807

/-- Split identity, footer byte range and optional declared inclusive time
range (`SplitIdAndFooterOffsets`). -/
structure SplitIdAndFooterOffsets where
  splitId : String
  splitFooterStart : Nat
  splitFooterEnd : Nat
  timestampStart : Option Int
  timestampEnd : Option Int
  deriving DecidableEq

/-- Modelled from the spec: the prost-generated accessor
`SplitIdAndFooterOffsets::timestamp_start` (from `quickwit-proto`, not under
the verified sources), defaulting to `i64::MIN` when absent. -/
def SplitIdAndFooterOffsets.timestamp_start (s : SplitIdAndFooterOffsets) : Int :=
  s.timestampStart.getD i64Min

/-- Modelled from the spec: the prost-generated accessor
`SplitIdAndFooterOffsets::timestamp_end` (from `quickwit-proto`, not under
the verified sources), defaulting to `i64::MAX` when absent. -/
def SplitIdAndFooterOffsets.timestamp_end (s : SplitIdAndFooterOffsets) : Int :=
  s.timestampEnd.getD i64Max

inductive SortOrder
  | Asc
  | Desc
  deriving DecidableEq

structure SortField where
  fieldName : String
  sortOrder : SortOrder
  deriving DecidableEq

inductive CountHits
  | CountAll
  | Underestimate
  deriving DecidableEq

/-- The fields of `SearchRequest` read by `leaf_search` and the request
rewriting (the query AST and index patterns are opaque to the verified
logic and omitted). -/
structure SearchRequest where
  maxHits : Nat
  startOffset : Nat
  sortFields : List SortField
  aggregationRequest : Option String
  countHits : CountHits
  startTimestamp : Option Int
  endTimestamp : Option Int
  deriving DecidableEq

/-- A sort value of a partial hit (`SortValue`); only the variants the
pruning filter inspects are distinguished. -/
inductive SortValue
  | U64 (n : Nat)
  | I64 (i : Int)
  | Boolean (b : Bool)
  deriving DecidableEq

/-- A per-document candidate result (`PartialHit`): the split id and the
sort value used against the running top-K bound. -/
structure PartialHit where
  splitId : String
  sortValue : Option SortValue
  deriving DecidableEq

/-- A per-split failure entry (`SplitSearchError`). -/
structure SplitSearchError where
  splitId : String
  error : String
  retryableError : Bool
  deriving DecidableEq

/-- The merged per-split search result (`LeafSearchResponse`); the
intermediate aggregation payload is opaque and omitted. -/
structure LeafSearchResponse where
  numHits : Nat
  partialHits : List PartialHit
  failedSplits : List SplitSearchError
  numAttemptedSplits : Nat
  deriving DecidableEq

/-- `rewrite_start_end_time_bounds` from `leaf.rs`: when the split declares
both timestamps, clear a start bound that the split's inclusive start
already satisfies (`start_timestamp <= split_start`) and clear an exclusive
end bound strictly above the split's inclusive end
(`end_timestamp > split_end`). -/
def rewrite_start_end_time_bounds (startTimestampOpt endTimestampOpt : Option Int)
    (split : SplitIdAndFooterOffsets) : Option Int × Option Int :=
  match split.timestampStart, split.timestampEnd with
  | some splitStart, some splitEnd =>
    let newStart :=
      match startTimestampOpt with
      | some startTimestamp =>
        if startTimestamp ≤ splitStart then none else some startTimestamp
      | none => none
    let newEnd :=
      match endTimestampOpt with
      | some endTimestamp =>
        if splitEnd < endTimestamp then none else some endTimestamp
      | none => none
    (newStart, newEnd)
  | _, _ => (startTimestampOpt, endTimestampOpt)

/-- The split pruning filter (`CanSplitDoBetter`). -/
inductive CanSplitDoBetter
  | Uninformative
  | SplitIdHigher (splitId : Option String)
  | SplitTimestampHigher (timestamp : Option Int)
  | SplitTimestampLower (timestamp : Option Int)
  deriving DecidableEq

/-- `CanSplitDoBetter::from_request`: derive the pruning strategy from the
request's sort specification and the doc mapper's timestamp field. -/
def CanSplitDoBetter.from_request (request : SearchRequest)
    (timestampFieldName : Option String) : CanSplitDoBetter :=
  match request.sortFields, timestampFieldName with
  | [], _ => .SplitIdHigher none
  | sortBy :: _, some timestampField =>
    if sortBy.fieldName = timestampField then
      if sortBy.sortOrder = .Desc then .SplitTimestampHigher none
      else .SplitTimestampLower none
    else .Uninformative
  | _ :: _, none => .Uninformative

/-- `CanSplitDoBetter::can_be_better`: whether the split can possibly hold a
document better than the current worst retained hit. -/
def CanSplitDoBetter.can_be_better (f : CanSplitDoBetter)
    (split : SplitIdAndFooterOffsets) : Bool :=
  match f with
  | .SplitIdHigher (some splitId) => decide (splitId ≤ split.splitId)
  | .SplitTimestampHigher (some timestamp) => decide (timestamp < split.timestamp_end)
  | .SplitTimestampLower (some timestamp) => decide (split.timestamp_start < timestamp)
  | _ => true

/-- Modelled from the spec: `quickwit_common::div_ceil` (from
`quickwit-common`, not under the verified sources). Per the spec, the
nanosecond-to-second conversion for a descending timestamp sort must "round
up", i.e. this is exact ceiling division (`Int./` is euclidean division,
which floors for the positive divisors used here). -/
def div_ceil (lhs rhs : Int) : Int := -((-lhs) / rhs)

/-- `CanSplitDoBetter::record_new_worst_hit`: fold the worst retained hit
into the pruning bound. Timestamp bounds are converted from nanoseconds to
seconds: rounding up under a descending sort, truncating toward zero
(Rust `i64` division, `Int.tdiv`) under an ascending sort. -/
def CanSplitDoBetter.record_new_worst_hit (f : CanSplitDoBetter) (hit : PartialHit) :
    CanSplitDoBetter :=
  match f with
  | .Uninformative => .Uninformative
  | .SplitIdHigher _ => .SplitIdHigher (some hit.splitId)
  | .SplitTimestampHigher timestamp =>
    match hit.sortValue with
    | some (.I64 timestampNs) =>
      .SplitTimestampHigher (some (div_ceil timestampNs 1000000000))
    | _ => .SplitTimestampHigher timestamp
  | .SplitTimestampLower timestamp =>
    match hit.sortValue with
    | some (.I64 timestampNs) =>
      .SplitTimestampLower (some (Int.tdiv timestampNs 1000000000))
    | _ => .SplitTimestampLower timestamp

/-- `run_all_splits` from `leaf_search`: true when the request needs an
aggregation or an exact hit count. -/
def run_all_splits (request : SearchRequest) : Bool :=
  request.aggregationRequest.isSome || decide (request.countHits = CountHits.CountAll)

/-- The dispatch decision `leaf_search` takes for one split. -/
inductive SplitDispatch
  | skipped
  | dispatched (request : SearchRequest)
  deriving DecidableEq

/-- The per-split dispatch logic of the `leaf_search` loop (lines 577-600 of
`leaf.rs`), evaluated against the pruning filter's state at dispatch time:
a split that cannot do better is skipped outright unless every split must
run, in which case it is dispatched with a degraded request (`max_hits = 0`,
`start_offset = 0`, sort fields cleared). -/
def leaf_search_plan_split (request : SearchRequest) (runAllSplits : Bool)
    (filter : CanSplitDoBetter) (split : SplitIdAndFooterOffsets) : SplitDispatch :=
  if !(filter.can_be_better split) then
    if !runAllSplits then .skipped
    else .dispatched
      { request with maxHits := 0, startOffset := 0, sortFields := [] }
  else .dispatched request

/-! ## The incremental merge of per-split results -/

/-- Modelled from the spec: the state of the `IncrementalCollector` (from
`quickwit-search/src/collector.rs`, not under the verified sources): the
running top-K of retained partial hits (kept best-first and never longer
than `maxHits`), the accumulated per-split failures, and the counts. The
aggregation accumulator is opaque to the verified logic and is not part of
the state; its finalization outcome enters `finalize` as an input. -/
structure IncrementalCollector where
  maxHits : Nat
  partialHits : List PartialHit
  failedSplits : List SplitSearchError
  numHits : Nat
  numAttemptedSplits : Nat
  deriving DecidableEq

/-- A fresh collector for a request retaining at most `maxHits` hits. -/
def IncrementalCollector.empty (maxHits : Nat) : IncrementalCollector :=
  { maxHits := maxHits, partialHits := [], failedSplits := [], numHits := 0
    numAttemptedSplits := 0 }

/-- Insert a hit into a best-first list of retained hits. `hitBefore h h'`
is the total order derived from the request's sort specification (`h` ranks
strictly before `h'`); it is opaque to the merge logic and passed as a
parameter. -/
def insertHit (hitBefore : PartialHit → PartialHit → Bool) (h : PartialHit) :
    List PartialHit → List PartialHit
  | [] => [h]
  | h' :: rest =>
    if hitBefore h h' then h :: h' :: rest else h' :: insertHit hitBefore h rest

/-- Modelled from the spec: inserting one candidate hit into the running
top-K. Once `maxHits` documents are retained, a candidate ranking behind
all of them falls off the truncated list — inserting a worse candidate is
a no-op, per the spec's top-K invariant. -/
def IncrementalCollector.insert_hit (hitBefore : PartialHit → PartialHit → Bool)
    (c : IncrementalCollector) (h : PartialHit) : IncrementalCollector :=
  { c with partialHits := (insertHit hitBefore h c.partialHits).take c.maxHits }

/-- Modelled from the spec: `IncrementalCollector::add_split` folds one
split's `LeafSearchResponse` into the running merge state: the counts and
failure entries accumulate, and each of the split's hits is inserted into
the running top-K. -/
def IncrementalCollector.add_split (hitBefore : PartialHit → PartialHit → Bool)
    (c : IncrementalCollector) (r : LeafSearchResponse) : IncrementalCollector :=
  r.partialHits.foldl (IncrementalCollector.insert_hit hitBefore)
    { c with
      failedSplits := c.failedSplits ++ r.failedSplits
      numHits := c.numHits + r.numHits
      numAttemptedSplits := c.numAttemptedSplits + r.numAttemptedSplits }

/-- Modelled from the spec: `IncrementalCollector::add_failed_split` records
one tagged per-split failure. -/
def IncrementalCollector.add_failed_split (c : IncrementalCollector)
    (e : SplitSearchError) : IncrementalCollector :=
  { c with failedSplits := c.failedSplits ++ [e] }

/-- Modelled from the spec: `IncrementalCollector::finalize` produces the
single merged `LeafSearchResponse`, or surfaces a hard error when merging
the aggregation accumulator fails. The aggregation accumulator is external
to the modelled state, so the outcome of its finalization is taken as the
input `aggOutcome`; per the spec it is the only source of finalization
failure — the retained hits, counts and failure entries always yield a
response. -/
def IncrementalCollector.finalize (c : IncrementalCollector)
    (aggOutcome : Except String Unit) : Except String LeafSearchResponse :=
  match aggOutcome with
  | .error e => .error e
  | .ok _ =>
    .ok { numHits := c.numHits
          partialHits := c.partialHits
          failedSplits := c.failedSplits
          numAttemptedSplits := c.numAttemptedSplits }

/-- The outcome of one split's spawned search task, as observed by
`leaf_search`: the task completed with a result, completed with a search
error, or panicked (its `JoinHandle` returns an error and the wrapper never
reached the collector). -/
inductive SplitTaskOutcome
  | ok (resp : LeafSearchResponse)
  | err (e : String)
  | panicked (e : String)
  deriving DecidableEq

/-- Whether a split task completed successfully. -/
def SplitTaskOutcome.isOk : SplitTaskOutcome → Bool
  | .ok _ => true
  | _ => false

/-- The split id used for failures of panicked tasks in `leaf_search`
(the `JoinError` does not carry the split id). -/
def unknownSplitId : String := "unknown"

/-- The tail of `leaf_search_single_split_wrapper` (lines 664-676 of
`leaf.rs`): fold the split's result into the shared collector, or record a
failure entry tagged with the split's id and `retryable_error = true`. A
panicked task never reaches this code. -/
def fold_split_outcome (hitBefore : PartialHit → PartialHit → Bool)
    (c : IncrementalCollector) (split : SplitIdAndFooterOffsets) :
    SplitTaskOutcome → IncrementalCollector
  | .ok r => c.add_split hitBefore r
  | .err e =>
    c.add_failed_split { splitId := split.splitId, error := e, retryableError := true }
  | .panicked _ => c

/-- The join loop of `leaf_search` (lines 614-625 of `leaf.rs`): each task
whose `JoinHandle` returned an error (panic) contributes one failure entry
with split id `"unknown"` and `retryable_error = true`. -/
def fold_join_result (c : IncrementalCollector) : SplitTaskOutcome → IncrementalCollector
  | .panicked e =>
    c.add_failed_split { splitId := unknownSplitId, error := e, retryableError := true }
  | _ => c

/-- The merge phase of `leaf_search`, given each split's task outcome: the
wrapper of every non-panicked task folds its result or failure into the
shared collector; the join loop then adds an `"unknown"` failure entry for
every panicked task; finally the collector is finalized into the single
`LeafSearchResponse` (or a hard error if the external aggregation merge,
`aggOutcome`, fails). -/
def leaf_search_merge (hitBefore : PartialHit → PartialHit → Bool) (maxHits : Nat)
    (aggOutcome : Except String Unit)
    (outcomes : List (SplitIdAndFooterOffsets × SplitTaskOutcome)) :
    Except String LeafSearchResponse :=
  let c := outcomes.foldl (fun c so => fold_split_outcome hitBefore c so.1 so.2)
    (IncrementalCollector.empty maxHits)
  let c := outcomes.foldl (fun c so => fold_join_result c so.2) c
  c.finalize aggOutcome

/-- The failure entry the wrapper produces for a split whose task returned a
search error (and `none` for other outcomes). -/
def errFailureEntry (so : SplitIdAndFooterOffsets × SplitTaskOutcome) :
    Option SplitSearchError :=
  match so.2 with
  | .err e => some { splitId := so.1.splitId, error := e, retryableError := true }
  | _ => none

/-- The failure entry the join loop produces for a panicked task (and `none`
for other outcomes). -/
def panicFailureEntry (so : SplitIdAndFooterOffsets × SplitTaskOutcome) :
    Option SplitSearchError :=
  match so.2 with
  | .panicked e => some { splitId := unknownSplitId, error := e, retryableError := true }
  | _ => none

/-! ## Reference functions for the partition-routing claims -/

/-- The keys of `ps` that are not in `seen`, in order of first occurrence. -/
def newKeys (seen : List Nat) : List Nat → List Nat
  | [] => []
  | k :: rest => if k ∈ seen then newKeys seen rest else k :: newKeys (seen ++ [k]) rest

/-- The distinct partition keys of `ps`, in order of first occurrence. -/
def firstOccurrences (ps : List Nat) : List Nat := newKeys [] ps

/-- The evolution of the set of per-partition split-builder keys under
`get_or_create_indexed_split`: a known key changes nothing; a fresh key is
appended while fewer than `maxP` builders exist, and is otherwise routed to
the overflow builder (leaving the keys unchanged). -/
def processKeys (maxP : Nat) : List Nat → List Nat → List Nat
  | K, [] => K
  | K, k :: rest =>
    if k ∈ K then processKeys maxP K rest
    else if maxP ≤ K.length then processKeys maxP K rest
    else processKeys maxP (K ++ [k]) rest

/-! ## Example inputs shared by witnesses and counterexamples -/

/-- An example indexer configuration: `split_num_docs_target = 3`, a 1000
byte heap budget, at most 10 partitions, last delete opstamp 7. -/
def cfgA : IndexerConfig :=
  { splitNumDocsTarget := 3, heapSize := 1000, maxNumPartitions := 10
    lastDeleteOpstamp := 7 }

/-- An example document on partition 0. -/
def docA : ProcessedDoc :=
  { partition := 0, numBytes := 10, timestampOpt := none, memDelta := 0 }

/-- An example single-document batch advancing partition 0 from 0 to 1. -/
def batchA : ProcessedDocBatch :=
  { docs := [docA]
    checkpointDelta := [(0, { fromPos := 0, toPos := 1 })]
    forceCommit := false }

/-- The indexer state reached from the initial state by accepting
`batchA`: a workbench holding one document on partition 0. -/
def stA : Indexer :=
  { workbenchOpt := some
      { indexedSplits :=
          [(0, { splitAttrs :=
            { partitionId := 0, numDocs := 1, uncompressedDocsSizeInBytes := 10
              timeRange := none, deleteOpstamp := 7 } })]
        otherIndexedSplitOpt := none
        checkpointDelta := [(0, { fromPos := 0, toPos := 1 })]
        memoryUsage := 0
        lastDeleteOpstamp := 7 }
    counters := { numSplitsEmitted := 0, numSplitBatchesEmitted := 0
                  numDocsInWorkbench := 1 }
    publishLockDead := false }

/-- An example split id. -/
def exSplitId : String := "split-a"

/-- A second example split id. -/
def exSplitIdB : String := "split-b"

/-! ## Claims -/

/-- C3: for every document batch arriving while the workbench's publish lock
is dead, the indexer drops the workbench immediately and returns success: no
document is added, no checkpoint delta is extended, no split batch and no
empty-split update is emitted, and `num_docs_in_workbench` (indeed every
counter) is unchanged. -/
theorem C3_dead_lock_drops_workbench (cfg : IndexerConfig) (st : Indexer)
    (batch : ProcessedDocBatch) (h : st.publishLockDead = true) :
    Indexer.index_batch cfg st batch = .ok ({ st with workbenchOpt := none }, []) := by
  simp only [Indexer.index_batch, IndexerState.index_batch, h, if_true,
    Indexer.commit_triggers, Indexer.send_to_serializer, Indexer.memory_usage,
    ite_self, List.append_nil, List.nil_append]

theorem C3_witness :
    Indexer.runBatches cfgA { Indexer.initial with publishLockDead := true } [batchA] =
      .ok ({ Indexer.initial with publishLockDead := true }, []) := by
  have h := C3_dead_lock_drops_workbench cfgA
    { Indexer.initial with publishLockDead := true } batchA rfl
  simp only [Indexer.runBatches, h]
  rfl

/-- C4 (counterexample): with a workbench holding one accepted document
(state `stA`, reached from the initial state by accepting `batchA`),
handling a `NewPublishLock` message emits nothing to the serializer — the
workbench is discarded, not flushed, contradicting the claim that the
accumulated documents are emitted before the new lock is installed. -/
theorem C4_counterexample :
    Indexer.runBatches cfgA Indexer.initial [batchA] = .ok (stA, []) ∧
    stA.workbenchOpt ≠ none ∧
    stA.counters.numDocsInWorkbench = 1 ∧
    (Indexer.handle_new_publish_lock stA false).2 = [] ∧
    (Indexer.handle_new_publish_lock stA false).1.workbenchOpt = none := by
  refine ⟨rfl, ?_, rfl, rfl, rfl⟩
  intro h
  simp [stA] at h

/-- C4 (amended): whenever a `NewPublishLock` message is handled, the
existing workbench (with whatever documents it accumulated) is discarded
without being flushed — no serializer message is emitted, the counters are
untouched — and the new lock is installed. -/
theorem C4_new_publish_lock_discards_workbench (st : Indexer) (newLockDead : Bool) :
    (Indexer.handle_new_publish_lock st newLockDead).2 = [] ∧
    (Indexer.handle_new_publish_lock st newLockDead).1.workbenchOpt = none ∧
    (Indexer.handle_new_publish_lock st newLockDead).1.counters = st.counters ∧
    (Indexer.handle_new_publish_lock st newLockDead).1.publishLockDead = newLockDead :=
  ⟨rfl, rfl, rfl, rfl⟩

/-- C10: the pruning filter's `can_be_better` returns `true` whenever the
filter is `Uninformative` or no worst-retained-hit bound has been recorded
yet (its bound is `None`); hence for those filter states `leaf_search`
neither skips nor degrades any split — it dispatches the request
unchanged. -/
theorem C10_no_prune_without_bound (split : SplitIdAndFooterOffsets)
    (request : SearchRequest) (runAll : Bool) :
    CanSplitDoBetter.can_be_better .Uninformative split = true ∧
    CanSplitDoBetter.can_be_better (.SplitIdHigher none) split = true ∧
    CanSplitDoBetter.can_be_better (.SplitTimestampHigher none) split = true ∧
    CanSplitDoBetter.can_be_better (.SplitTimestampLower none) split = true ∧
    leaf_search_plan_split request runAll .Uninformative split = .dispatched request ∧
    leaf_search_plan_split request runAll (.SplitIdHigher none) split =
      .dispatched request ∧
    leaf_search_plan_split request runAll (.SplitTimestampHigher none) split =
      .dispatched request ∧
    leaf_search_plan_split request runAll (.SplitTimestampLower none) split =
      .dispatched request :=
  ⟨rfl, rfl, rfl, rfl, rfl, rfl, rfl, rfl⟩

/-- C6: against a split declaring both timestamps, rewriting a request's
time bounds clears both bounds when the split's inclusive range fully
covers them (start bound ≤ split start and split end strictly below the
exclusive end bound), while a bound the split only partially overlaps is
preserved — in particular an end bound equal to the split's declared max
timestamp is kept. -/
theorem C6_rewrite_time_bounds (split : SplitIdAndFooterOffsets)
    (splitStart splitEnd startBound endBound : Int)
    (h1 : split.timestampStart = some splitStart)
    (h2 : split.timestampEnd = some splitEnd) :
    (startBound ≤ splitStart → splitEnd < endBound →
      rewrite_start_end_time_bounds (some startBound) (some endBound) split =
        (none, none)) ∧
    (splitStart < startBound →
      (rewrite_start_end_time_bounds (some startBound) (some endBound) split).1 =
        some startBound) ∧
    (endBound ≤ splitEnd →
      (rewrite_start_end_time_bounds (some startBound) (some endBound) split).2 =
        some endBound) := by
  simp only [rewrite_start_end_time_bounds, h1, h2]
  refine ⟨?_, ?_, ?_⟩
  · intro hs he
    rw [if_pos hs, if_pos he]
  · intro hs
    rw [if_neg (by omega)]
  · intro he
    rw [if_neg (by omega)]

theorem C6_witness :
    ((-5 : Int) ≤ 0 ∧ (10 : Int) < 20 ∧
      rewrite_start_end_time_bounds (some (-5)) (some 20)
        { splitId := exSplitId, splitFooterStart := 0, splitFooterEnd := 1
          timestampStart := some 0, timestampEnd := some 10 } = (none, none)) ∧
    ((0 : Int) < 5 ∧ (10 : Int) ≤ 10 ∧
      rewrite_start_end_time_bounds (some 5) (some 10)
        { splitId := exSplitId, splitFooterStart := 0, splitFooterEnd := 1
          timestampStart := some 0, timestampEnd := some 10 } = (some 5, some 10)) := by
  have h1 := C6_rewrite_time_bounds
    { splitId := exSplitId, splitFooterStart := 0, splitFooterEnd := 1
      timestampStart := some 0, timestampEnd := some 10 } 0 10 (-5) 20 rfl rfl
  have h2 := C6_rewrite_time_bounds
    { splitId := exSplitId, splitFooterStart := 0, splitFooterEnd := 1
      timestampStart := some 0, timestampEnd := some 10 } 0 10 5 10 rfl rfl
  refine ⟨⟨by decide, by decide, h1.1 (by decide) (by decide)⟩,
    ⟨by decide, by decide, ?_⟩⟩
  have ha := h2.2.1 (by decide)
  have hb := h2.2.2 (by decide)
  rw [Prod.ext_iff]
  exact ⟨ha, hb⟩

/-- C7: recording a worst-retained-hit with a nanosecond timestamp sort
value converts it to seconds rounding toward inclusion: under a descending
timestamp sort the recorded bound `b` is the exact ceiling of
`ns / 1_000_000_000` (characterized by `(b-1)·10⁹ < ns ≤ b·10⁹`), and under
an ascending sort it is the truncating (toward zero, Rust `i64`) division
`Int.tdiv ns 1_000_000_000`. -/
theorem C7_nanosecond_bound_rounding (tHigh tLow : Option Int) (hit : PartialHit)
    (ns : Int) (h : hit.sortValue = some (.I64 ns)) :
    (∃ b : Int,
      CanSplitDoBetter.record_new_worst_hit (.SplitTimestampHigher tHigh) hit =
        .SplitTimestampHigher (some b) ∧
      (b - 1) * 1000000000 < ns ∧ ns ≤ b * 1000000000) ∧
    CanSplitDoBetter.record_new_worst_hit (.SplitTimestampLower tLow) hit =
      .SplitTimestampLower (some (Int.tdiv ns 1000000000)) := by
  constructor
  · refine ⟨div_ceil ns 1000000000, ?_, ?_, ?_⟩
    · simp only [CanSplitDoBetter.record_new_worst_hit, h]
    · unfold div_ceil
      omega
    · unfold div_ceil
      omega
  · simp only [CanSplitDoBetter.record_new_worst_hit, h]

theorem C7_witness :
    (∃ b : Int,
      CanSplitDoBetter.record_new_worst_hit (.SplitTimestampHigher none)
          { splitId := exSplitId, sortValue := some (.I64 1500000000) } =
        .SplitTimestampHigher (some b) ∧
      (b - 1) * 1000000000 < 1500000000 ∧ (1500000000 : Int) ≤ b * 1000000000) ∧
    CanSplitDoBetter.record_new_worst_hit (.SplitTimestampLower none)
        { splitId := exSplitId, sortValue := some (.I64 1500000000) } =
      .SplitTimestampLower (some (Int.tdiv 1500000000 1000000000)) :=
  C7_nanosecond_bound_rounding none none
    { splitId := exSplitId, sortValue := some (.I64 1500000000) } 1500000000 rfl

/-- C8: for a split the pruning filter says cannot yield a better document,
`leaf_search` skips the split outright when the request needs neither an
aggregation nor an exact hit count, and otherwise still dispatches it but
with a degraded request (`max_hits = 0`, sort fields cleared) so it only
contributes to counts/aggregations. -/
theorem C8_prune_skip_or_degrade (request : SearchRequest)
    (filter : CanSplitDoBetter) (split : SplitIdAndFooterOffsets)
    (h : filter.can_be_better split = false) :
    (request.aggregationRequest = none → request.countHits ≠ CountHits.CountAll →
      leaf_search_plan_split request (run_all_splits request) filter split =
        .skipped) ∧
    (request.aggregationRequest ≠ none ∨ request.countHits = CountHits.CountAll →
      leaf_search_plan_split request (run_all_splits request) filter split =
        .dispatched
          { request with maxHits := 0, startOffset := 0, sortFields := [] }) := by
  constructor
  · intro hagg hcount
    have hrun : run_all_splits request = false := by
      simp [run_all_splits, hagg, hcount]
    simp [leaf_search_plan_split, h, hrun]
  · intro hneed
    have hrun : run_all_splits request = true := by
      rcases hneed with hagg | hcount
      · simp [run_all_splits, Option.isSome_iff_exists]
        rcases Option.ne_none_iff_exists'.mp hagg with ⟨a, ha⟩
        exact Or.inl ⟨a, ha⟩
      · simp [run_all_splits, hcount]
    simp [leaf_search_plan_split, h, hrun]

/-- An example request that needs no aggregation and no exact count. -/
def requestA : SearchRequest :=
  { maxHits := 10, startOffset := 0, sortFields := []
    aggregationRequest := none, countHits := .Underestimate
    startTimestamp := none, endTimestamp := none }

/-- An example split with a declared time range of `[0, 3]`. -/
def splitA : SplitIdAndFooterOffsets :=
  { splitId := exSplitId, splitFooterStart := 0, splitFooterEnd := 1
    timestampStart := some 0, timestampEnd := some 3 }

/-- `requestA` with an exact hit count required. -/
def requestB : SearchRequest := { requestA with countHits := CountHits.CountAll }

/-- `requestB` degraded for a count-only pass. -/
def requestBDegraded : SearchRequest :=
  { requestB with maxHits := 0, startOffset := 0, sortFields := [] }

theorem C8_witness :
    (CanSplitDoBetter.can_be_better (.SplitTimestampHigher (some 5)) splitA = false) ∧
    leaf_search_plan_split requestA (run_all_splits requestA)
        (.SplitTimestampHigher (some 5)) splitA = .skipped ∧
    leaf_search_plan_split requestB (run_all_splits requestB)
        (.SplitTimestampHigher (some 5)) splitA = .dispatched requestBDegraded := by
  have hfalse : CanSplitDoBetter.can_be_better
      (.SplitTimestampHigher (some 5)) splitA = false := by decide
  have h1 := C8_prune_skip_or_degrade requestA (.SplitTimestampHigher (some 5))
    splitA hfalse
  have h2 := C8_prune_skip_or_degrade requestB (.SplitTimestampHigher (some 5))
    splitA hfalse
  exact ⟨hfalse, h1.1 rfl (by decide), h2.2 (Or.inr rfl)⟩

/-- Extending a pending checkpoint delta by a chaining batch delta computes
exactly the union of the two deltas. -/
theorem extend_ok_eq_union (batch : SourceCheckpointDelta) :
    ∀ d d', SourceCheckpointDelta.extend d batch = .ok d' → d' = deltaUnion d batch := by
  induction batch with
  | nil =>
    intro d d' h
    simp only [SourceCheckpointDelta.extend] at h
    cases h
    rfl
  | cons e rest ih =>
    intro d d' h
    obtain ⟨p, pd⟩ := e
    simp only [SourceCheckpointDelta.extend] at h
    simp only [deltaUnion, List.foldl_cons]
    split at h
    next cur hl =>
      split at h
      next hchain =>
        have hrec := ih _ _ h
        simp only [mergeOnePartition, hl]
        simpa [deltaUnion] using hrec
      next hchain =>
        simp at h
    next hl =>
      have hrec := ih _ _ h
      simp only [mergeOnePartition, hl]
      simpa [deltaUnion] using hrec

/-- C2: a batch whose checkpoint delta does not chain onto the workbench's
pending delta is rejected: a partition entry that would move backward or
leave a gap makes `extend` fail, and a failing `extend` makes the whole
batch handler fail with the propagated error before any document of the
batch is added (the indexer state, being a pure function result, is not
produced at all). A batch whose delta does chain leaves the workbench's
pending delta equal to the union of the previous pending delta and the
batch's delta. -/
theorem C2_checkpoint_chaining (cfg : IndexerConfig) (st : Indexer)
    (batch : ProcessedDocBatch) (hlock : st.publishLockDead = false) :
    (∀ p pd cur,
      lookupAssoc (Indexer.get_or_create_workbench cfg st).checkpointDelta p = some cur →
      cur.toPos ≠ pd.fromPos → batch.checkpointDelta = [(p, pd)] →
      SourceCheckpointDelta.extend
        (Indexer.get_or_create_workbench cfg st).checkpointDelta batch.checkpointDelta =
        .error chainErrorMsg) ∧
    (∀ e, SourceCheckpointDelta.extend
        (Indexer.get_or_create_workbench cfg st).checkpointDelta batch.checkpointDelta =
        .error e →
      Indexer.index_batch cfg st batch = .error e) ∧
    (∀ d', SourceCheckpointDelta.extend
        (Indexer.get_or_create_workbench cfg st).checkpointDelta batch.checkpointDelta =
        .ok d' →
      d' = deltaUnion (Indexer.get_or_create_workbench cfg st).checkpointDelta
        batch.checkpointDelta ∧
      ∃ st' wb', IndexerState.index_batch cfg st batch = .ok st' ∧
        st'.workbenchOpt = some wb' ∧
        wb'.checkpointDelta =
          deltaUnion (Indexer.get_or_create_workbench cfg st).checkpointDelta
            batch.checkpointDelta) := by
  refine ⟨?_, ?_, ?_⟩
  · intro p pd cur hcur hne hbatch
    rw [hbatch]
    simp only [SourceCheckpointDelta.extend, hcur, if_neg (by exact hne)]
  · intro e hext
    simp only [Indexer.index_batch, IndexerState.index_batch, hlock, if_false,
      Bool.false_eq_true, hext]
  · intro d' hext
    have hunion := extend_ok_eq_union batch.checkpointDelta _ _ hext
    refine ⟨hunion, ?_⟩
    simp only [IndexerState.index_batch, hlock, if_false, Bool.false_eq_true, hext]
    refine ⟨_, _, rfl, rfl, ?_⟩
    have hdelta : ∀ wb c docs, (processDocs cfg wb c docs).1.checkpointDelta =
        wb.checkpointDelta := by
      intro wb c docs
      induction docs generalizing wb c with
      | nil => rfl
      | cons doc rest ihd =>
        simp only [processDocs, ihd]
        simp only [processDoc]
        cases lookupAssoc wb.indexedSplits doc.partition <;> simp
        split <;> rfl
    rw [hdelta]
    exact hunion

/-- A batch whose single-partition delta leaves a gap on partition 0
(the pending delta stops at position 1, the batch resumes at 2). -/
def batchGap : ProcessedDocBatch :=
  { docs := [], checkpointDelta := [(0, { fromPos := 2, toPos := 3 })]
    forceCommit := false }

/-- A batch whose delta chains onto `stA`'s pending delta and adds a fresh
partition 5. -/
def batchChain : ProcessedDocBatch :=
  { docs := [], checkpointDelta := [(0, { fromPos := 1, toPos := 4 }),
      (5, { fromPos := 0, toPos := 2 })]
    forceCommit := false }

theorem C2_witness :
    (SourceCheckpointDelta.extend
      (Indexer.get_or_create_workbench cfgA stA).checkpointDelta
      batchGap.checkpointDelta = .error chainErrorMsg) ∧
    Indexer.index_batch cfgA stA batchGap = .error chainErrorMsg ∧
    ((deltaUnion (Indexer.get_or_create_workbench cfgA stA).checkpointDelta
        batchChain.checkpointDelta) =
      [(0, { fromPos := 0, toPos := 4 }), (5, { fromPos := 0, toPos := 2 })] ∧
     ∃ st' wb', IndexerState.index_batch cfgA stA batchChain = .ok st' ∧
       st'.workbenchOpt = some wb' ∧
       wb'.checkpointDelta =
         deltaUnion (Indexer.get_or_create_workbench cfgA stA).checkpointDelta
           batchChain.checkpointDelta) := by
  have h := C2_checkpoint_chaining cfgA stA batchGap rfl
  have herr := h.1 0 { fromPos := 2, toPos := 3 } { fromPos := 0, toPos := 1 }
    rfl (by decide) rfl
  have h2 := C2_checkpoint_chaining cfgA stA batchChain rfl
  have hok := h2.2.2 [(0, { fromPos := 0, toPos := 4 }), (5, { fromPos := 0, toPos := 2 })]
    rfl
  exact ⟨herr, (h.2.1 chainErrorMsg herr), hok.1.symm, hok.2⟩

/-- Folding a split's hits into the running top-K touches only the
retained-hits field: the cap, the failure list and the counts are
untouched. -/
theorem insertHits_foldl_fields (hitBefore : PartialHit → PartialHit → Bool) :
    ∀ (hits : List PartialHit) (c : IncrementalCollector),
      ((hits.foldl (IncrementalCollector.insert_hit hitBefore) c).maxHits = c.maxHits ∧
       (hits.foldl (IncrementalCollector.insert_hit hitBefore) c).failedSplits =
         c.failedSplits ∧
       (hits.foldl (IncrementalCollector.insert_hit hitBefore) c).numHits = c.numHits ∧
       (hits.foldl (IncrementalCollector.insert_hit hitBefore) c).numAttemptedSplits =
         c.numAttemptedSplits) := by
  intro hits
  induction hits with
  | nil => intro c; exact ⟨rfl, rfl, rfl, rfl⟩
  | cons h rest ih =>
    intro c
    simp only [List.foldl_cons]
    exact ih (IncrementalCollector.insert_hit hitBefore c h)

/-- `add_split` appends the split's failure entries and keeps the cap. -/
theorem add_split_fields (hitBefore : PartialHit → PartialHit → Bool)
    (c : IncrementalCollector) (r : LeafSearchResponse) :
    (IncrementalCollector.add_split hitBefore c r).maxHits = c.maxHits ∧
    (IncrementalCollector.add_split hitBefore c r).failedSplits =
      c.failedSplits ++ r.failedSplits := by
  unfold IncrementalCollector.add_split
  exact ⟨(insertHits_foldl_fields hitBefore r.partialHits _).1,
    (insertHits_foldl_fields hitBefore r.partialHits _).2.1⟩

/-- The retained top-K after folding a split's hits depends only on the cap
and the previously retained hits. -/
theorem insertHits_foldl_hits_congr (hitBefore : PartialHit → PartialHit → Bool) :
    ∀ (hits : List PartialHit) (c₁ c₂ : IncrementalCollector),
      c₁.maxHits = c₂.maxHits → c₁.partialHits = c₂.partialHits →
      ((hits.foldl (IncrementalCollector.insert_hit hitBefore) c₁).maxHits =
        (hits.foldl (IncrementalCollector.insert_hit hitBefore) c₂).maxHits ∧
       (hits.foldl (IncrementalCollector.insert_hit hitBefore) c₁).partialHits =
        (hits.foldl (IncrementalCollector.insert_hit hitBefore) c₂).partialHits) := by
  intro hits
  induction hits with
  | nil => intro c₁ c₂ hm hp; exact ⟨hm, hp⟩
  | cons h rest ih =>
    intro c₁ c₂ hm hp
    simp only [List.foldl_cons]
    refine ih _ _ ?_ ?_
    · exact hm
    · simp only [IncrementalCollector.insert_hit]
      rw [hm, hp]

/-- The retained top-K after folding a whole split result depends only on
the cap and the previously retained hits, not on the failure entries. -/
theorem add_split_hits_congr (hitBefore : PartialHit → PartialHit → Bool)
    (r : LeafSearchResponse) (c₁ c₂ : IncrementalCollector)
    (hm : c₁.maxHits = c₂.maxHits) (hp : c₁.partialHits = c₂.partialHits) :
    (IncrementalCollector.add_split hitBefore c₁ r).maxHits =
      (IncrementalCollector.add_split hitBefore c₂ r).maxHits ∧
    (IncrementalCollector.add_split hitBefore c₁ r).partialHits =
      (IncrementalCollector.add_split hitBefore c₂ r).partialHits := by
  unfold IncrementalCollector.add_split
  exact insertHits_foldl_hits_congr hitBefore r.partialHits _ _ hm hp

/-- The hit state reached by the wrapper folds depends only on the initial
cap and retained hits. -/
theorem fold_outcomes_hits_congr (hitBefore : PartialHit → PartialHit → Bool) :
    ∀ (l : List (SplitIdAndFooterOffsets × SplitTaskOutcome))
      (c₁ c₂ : IncrementalCollector),
      c₁.maxHits = c₂.maxHits → c₁.partialHits = c₂.partialHits →
      ((l.foldl (fun c so => fold_split_outcome hitBefore c so.1 so.2) c₁).maxHits =
        (l.foldl (fun c so => fold_split_outcome hitBefore c so.1 so.2) c₂).maxHits ∧
       (l.foldl (fun c so => fold_split_outcome hitBefore c so.1 so.2) c₁).partialHits =
        (l.foldl (fun c so => fold_split_outcome hitBefore c so.1 so.2) c₂).partialHits) := by
  intro l
  induction l with
  | nil => intro c₁ c₂ hm hp; exact ⟨hm, hp⟩
  | cons so rest ih =>
    intro c₁ c₂ hm hp
    obtain ⟨s, out⟩ := so
    simp only [List.foldl_cons]
    cases out with
    | ok r =>
      obtain ⟨hm', hp'⟩ := add_split_hits_congr hitBefore r c₁ c₂ hm hp
      exact ih _ _ hm' hp'
    | err e => exact ih _ _ hm hp
    | panicked e => exact ih _ _ hm hp

/-- The wrapper folds retain exactly the hits they would retain if the
failing splits' outcomes were absent: a per-split failure neither removes
nor displaces any other split's hits. -/
theorem fold_outcomes_hits_filter (hitBefore : PartialHit → PartialHit → Bool) :
    ∀ (l : List (SplitIdAndFooterOffsets × SplitTaskOutcome))
      (c : IncrementalCollector),
      (l.foldl (fun c so => fold_split_outcome hitBefore c so.1 so.2) c).partialHits =
        ((l.filter (fun so => so.2.isOk)).foldl
          (fun c so => fold_split_outcome hitBefore c so.1 so.2) c).partialHits := by
  intro l
  induction l with
  | nil => intro c; rfl
  | cons so rest ih =>
    intro c
    obtain ⟨s, out⟩ := so
    cases out with
    | ok r =>
      simp only [List.filter_cons, SplitTaskOutcome.isOk, if_pos rfl, List.foldl_cons]
      exact ih (IncrementalCollector.add_split hitBefore c r)
    | err e =>
      have hdrop : ((s, SplitTaskOutcome.err e) :: rest).filter
          (fun so => so.2.isOk) = rest.filter (fun so => so.2.isOk) := by
        simp [List.filter_cons, SplitTaskOutcome.isOk]
      rw [hdrop]
      simp only [List.foldl_cons]
      have hcongr := fold_outcomes_hits_congr hitBefore rest
        (fold_split_outcome hitBefore c s (SplitTaskOutcome.err e)) c rfl rfl
      rw [hcongr.2]
      exact ih c
    | panicked e =>
      have hdrop : ((s, SplitTaskOutcome.panicked e) :: rest).filter
          (fun so => so.2.isOk) = rest.filter (fun so => so.2.isOk) := by
        simp [List.filter_cons, SplitTaskOutcome.isOk]
      rw [hdrop]
      simp only [List.foldl_cons]
      exact ih c

/-- Folding the non-panicked task outcomes into a collector appends to the
failure list exactly one tagged entry per errored split. -/
theorem fold_split_outcomes_spec (hitBefore : PartialHit → PartialHit → Bool)
    (l : List (SplitIdAndFooterOffsets × SplitTaskOutcome)) :
    ∀ c : IncrementalCollector,
    (∀ s r, (s, SplitTaskOutcome.ok r) ∈ l → r.failedSplits = []) →
    (l.foldl (fun c so => fold_split_outcome hitBefore c so.1 so.2) c).failedSplits =
      c.failedSplits ++ l.filterMap errFailureEntry := by
  induction l with
  | nil => intro c _; simp
  | cons so rest ih =>
    intro c hok
    obtain ⟨s, out⟩ := so
    have hokrest : ∀ s r, (s, SplitTaskOutcome.ok r) ∈ rest → r.failedSplits = [] := by
      intro s' r' hmem
      exact hok s' r' (List.mem_cons_of_mem _ hmem)
    simp only [List.foldl_cons]
    have hrec := ih (fold_split_outcome hitBefore c s out) hokrest
    cases out with
    | ok r =>
      have hr : r.failedSplits = [] := hok s r (List.mem_cons_self _ _)
      rw [hrec]
      have hfs : (fold_split_outcome hitBefore c s
          (SplitTaskOutcome.ok r)).failedSplits = c.failedSplits := by
        have := (add_split_fields hitBefore c r).2
        simp only [fold_split_outcome]
        rw [this, hr, List.append_nil]
      rw [hfs]
      simp [List.filterMap_cons, errFailureEntry]
    | err e =>
      rw [hrec]
      simp [fold_split_outcome, IncrementalCollector.add_failed_split,
        List.filterMap_cons, errFailureEntry, List.append_assoc]
    | panicked e =>
      rw [hrec]
      simp [fold_split_outcome, List.filterMap_cons, errFailureEntry]

/-- The join loop appends exactly one `"unknown"`-tagged entry per panicked
task and leaves the retained hits untouched. -/
theorem fold_join_results_spec
    (l : List (SplitIdAndFooterOffsets × SplitTaskOutcome)) :
    ∀ c : IncrementalCollector,
    ((l.foldl (fun c so => fold_join_result c so.2) c).failedSplits =
        c.failedSplits ++ l.filterMap panicFailureEntry ∧
     (l.foldl (fun c so => fold_join_result c so.2) c).partialHits =
        c.partialHits) := by
  induction l with
  | nil => intro c; simp
  | cons so rest ih =>
    intro c
    obtain ⟨s, out⟩ := so
    simp only [List.foldl_cons]
    have hrec := ih (fold_join_result c out)
    cases out with
    | ok r =>
      refine ⟨?_, ?_⟩
      · rw [hrec.1]
        simp [fold_join_result, List.filterMap_cons, panicFailureEntry]
      · rw [hrec.2]
        simp [fold_join_result]
    | err e =>
      refine ⟨?_, ?_⟩
      · rw [hrec.1]
        simp [fold_join_result, List.filterMap_cons, panicFailureEntry]
      · rw [hrec.2]
        simp [fold_join_result]
    | panicked e =>
      refine ⟨?_, ?_⟩
      · rw [hrec.1]
        simp [fold_join_result, IncrementalCollector.add_failed_split,
          List.filterMap_cons, panicFailureEntry, List.append_assoc]
      · rw [hrec.2]
        simp [fold_join_result, IncrementalCollector.add_failed_split]

/-- An example panic message. -/
def panicMsg : String := "task panicked"

/-- An example search error message. -/
def errMsg : String := "storage failure"

/-- An example total hit order for concrete runs: no hit ranks strictly
before another, so insertion keeps arrival order. -/
def exampleHitOrder : PartialHit → PartialHit → Bool := fun _ _ => false

/-- The merged response of a run whose only split panicked. -/
def respPanic : LeafSearchResponse :=
  { numHits := 0
    partialHits := []
    failedSplits :=
      [{ splitId := unknownSplitId, error := panicMsg, retryableError := true }]
    numAttemptedSplits := 0 }

/-- C9 (counterexample): a split whose spawned task panics (its join handle
returns an error before the wrapper could tag the failure) contributes a
failure entry whose split id is `"unknown"`, not the split's own id
`"split-a"` — refuting the claim that every errored-or-panicked split's
entry carries that split's id. -/
theorem C9_counterexample :
    leaf_search_merge exampleHitOrder 10 (.ok ())
      [(splitA, SplitTaskOutcome.panicked panicMsg)] = .ok respPanic ∧
    respPanic.failedSplits =
      [{ splitId := unknownSplitId, error := panicMsg, retryableError := true }] ∧
    splitA.splitId = exSplitId ∧
    ∀ e ∈ respPanic.failedSplits, e.splitId ≠ splitA.splitId := by
  refine ⟨rfl, rfl, rfl, ?_⟩
  intro e he
  simp only [respPanic, List.mem_singleton] at he
  rw [he]
  decide

/-- C9 (amended): for any total hit order, hit cap and task outcomes, a hard
merge error arises exactly from a failing external aggregation finalization,
never from per-split failures; when the aggregation merge succeeds a single
response is produced in which every errored split contributes exactly one
failure entry carrying that split's id and `retryable_error = true`, every
panicked split contributes exactly one failure entry with
`retryable_error = true` but split id `"unknown"`, and the retained top-K
partial hits are exactly those of merging only the successfully searched
splits — the failures neither remove nor displace any other split's hits. -/
theorem C9_failure_entries (hitBefore : PartialHit → PartialHit → Bool)
    (maxHits : Nat)
    (outcomes : List (SplitIdAndFooterOffsets × SplitTaskOutcome))
    (hok : ∀ s r, (s, SplitTaskOutcome.ok r) ∈ outcomes → r.failedSplits = []) :
    (∀ e, leaf_search_merge hitBefore maxHits (.error e) outcomes = .error e) ∧
    ∃ resp respOkOnly,
      leaf_search_merge hitBefore maxHits (.ok ()) outcomes = .ok resp ∧
      leaf_search_merge hitBefore maxHits (.ok ())
        (outcomes.filter (fun so => so.2.isOk)) = .ok respOkOnly ∧
      resp.failedSplits =
        outcomes.filterMap errFailureEntry ++ outcomes.filterMap panicFailureEntry ∧
      (∀ s e, (s, SplitTaskOutcome.err e) ∈ outcomes →
        { splitId := s.splitId, error := e, retryableError := true } ∈
          resp.failedSplits) ∧
      (∀ s e, (s, SplitTaskOutcome.panicked e) ∈ outcomes →
        { splitId := unknownSplitId, error := e, retryableError := true } ∈
          resp.failedSplits) ∧
      resp.partialHits = respOkOnly.partialHits ∧
      respOkOnly.failedSplits = [] := by
  constructor
  · intro e
    rfl
  · refine ⟨_, _, rfl, rfl, ?_, ?_, ?_, ?_, ?_⟩
    · simp only [leaf_search_merge, IncrementalCollector.finalize]
      rw [(fold_join_results_spec outcomes _).1,
        fold_split_outcomes_spec hitBefore outcomes _ hok]
      simp [IncrementalCollector.empty]
    · intro s e hmem
      simp only [leaf_search_merge, IncrementalCollector.finalize]
      rw [(fold_join_results_spec outcomes _).1,
        fold_split_outcomes_spec hitBefore outcomes _ hok]
      refine List.mem_append.mpr (Or.inl (List.mem_append.mpr (Or.inr ?_)))
      exact List.mem_filterMap.mpr ⟨(s, SplitTaskOutcome.err e), hmem, rfl⟩
    · intro s e hmem
      simp only [leaf_search_merge, IncrementalCollector.finalize]
      rw [(fold_join_results_spec outcomes _).1]
      refine List.mem_append.mpr (Or.inr ?_)
      exact List.mem_filterMap.mpr ⟨(s, SplitTaskOutcome.panicked e), hmem, rfl⟩
    · simp only [leaf_search_merge, IncrementalCollector.finalize]
      rw [(fold_join_results_spec outcomes _).2,
        (fold_join_results_spec (outcomes.filter (fun so => so.2.isOk)) _).2]
      exact fold_outcomes_hits_filter hitBefore outcomes _
    · simp only [leaf_search_merge, IncrementalCollector.finalize]
      have hokf : ∀ s r, (s, SplitTaskOutcome.ok r) ∈
          outcomes.filter (fun so => so.2.isOk) → r.failedSplits = [] := by
        intro s r hmem
        exact hok s r (List.mem_of_mem_filter hmem)
      rw [(fold_join_results_spec (outcomes.filter (fun so => so.2.isOk)) _).1,
        fold_split_outcomes_spec hitBefore (outcomes.filter (fun so => so.2.isOk))
          _ hokf]
      have herr : (outcomes.filter (fun so => so.2.isOk)).filterMap
          errFailureEntry = [] := by
        rw [List.filterMap_eq_nil_iff]
        intro so hso
        have hso' := List.of_mem_filter hso
        obtain ⟨s, out⟩ := so
        cases out with
        | ok r => rfl
        | err e => simp [SplitTaskOutcome.isOk] at hso'
        | panicked e => simp [SplitTaskOutcome.isOk] at hso'
      have hpan : (outcomes.filter (fun so => so.2.isOk)).filterMap
          panicFailureEntry = [] := by
        rw [List.filterMap_eq_nil_iff]
        intro so hso
        have hso' := List.of_mem_filter hso
        obtain ⟨s, out⟩ := so
        cases out with
        | ok r => rfl
        | err e => simp [SplitTaskOutcome.isOk] at hso'
        | panicked e => simp [SplitTaskOutcome.isOk] at hso'
      rw [herr, hpan]
      simp [IncrementalCollector.empty]

/-- An example successful per-split response with one hit. -/
def respB : LeafSearchResponse :=
  { numHits := 1
    partialHits := [{ splitId := exSplitIdB, sortValue := some (.I64 3) }]
    failedSplits := []
    numAttemptedSplits := 1 }

/-- An example split for `respB`. -/
def splitB : SplitIdAndFooterOffsets :=
  { splitId := exSplitIdB, splitFooterStart := 0, splitFooterEnd := 1
    timestampStart := none, timestampEnd := none }

theorem C9_witness :
    (∀ e, leaf_search_merge exampleHitOrder 10 (.error e)
      [(splitA, SplitTaskOutcome.err errMsg), (splitB, SplitTaskOutcome.ok respB)] =
        .error e) ∧
    ∃ resp respOkOnly,
      leaf_search_merge exampleHitOrder 10 (.ok ())
        [(splitA, SplitTaskOutcome.err errMsg), (splitB, SplitTaskOutcome.ok respB)] =
          .ok resp ∧
      leaf_search_merge exampleHitOrder 10 (.ok ())
        ([(splitA, SplitTaskOutcome.err errMsg),
          (splitB, SplitTaskOutcome.ok respB)].filter (fun so => so.2.isOk)) =
          .ok respOkOnly ∧
      resp.failedSplits =
        [(splitA, SplitTaskOutcome.err errMsg),
          (splitB, SplitTaskOutcome.ok respB)].filterMap errFailureEntry ++
        [(splitA, SplitTaskOutcome.err errMsg),
          (splitB, SplitTaskOutcome.ok respB)].filterMap panicFailureEntry ∧
      (∀ s e, (s, SplitTaskOutcome.err e) ∈
          [(splitA, SplitTaskOutcome.err errMsg), (splitB, SplitTaskOutcome.ok respB)] →
        { splitId := s.splitId, error := e, retryableError := true } ∈
          resp.failedSplits) ∧
      (∀ s e, (s, SplitTaskOutcome.panicked e) ∈
          [(splitA, SplitTaskOutcome.err errMsg), (splitB, SplitTaskOutcome.ok respB)] →
        { splitId := unknownSplitId, error := e, retryableError := true } ∈
          resp.failedSplits) ∧
      resp.partialHits = respOkOnly.partialHits ∧
      respOkOnly.failedSplits = [] :=
  C9_failure_entries exampleHitOrder 10
    [(splitA, SplitTaskOutcome.err errMsg), (splitB, SplitTaskOutcome.ok respB)]
    (by intro s r hmem; simp [respB] at hmem; rw [hmem.2])

/-! ### Association-list and key-evolution lemmas for the routing claim -/

theorem lookupAssoc_eq_none {α : Type} (l : List (Nat × α)) (k : Nat) :
    lookupAssoc l k = none ↔ k ∉ l.map Prod.fst := by
  induction l with
  | nil => simp [lookupAssoc]
  | cons e rest ih =>
    obtain ⟨k', v⟩ := e
    by_cases hk : k' = k
    · subst hk
      simp [lookupAssoc]
    · simp [lookupAssoc, hk, ih, Ne.symm hk]

theorem lookupAssoc_mem {α : Type} (l : List (Nat × α)) (k : Nat) (v : α)
    (h : lookupAssoc l k = some v) : (k, v) ∈ l := by
  induction l with
  | nil => simp [lookupAssoc] at h
  | cons e rest ih =>
    obtain ⟨k', v'⟩ := e
    by_cases hk : k' = k
    · subst hk
      simp [lookupAssoc] at h
      subst h
      exact List.mem_cons_self _ _
    · simp [lookupAssoc, hk] at h
      exact List.mem_cons_of_mem _ (ih h)

theorem updateAssoc_map_fst {α : Type} (l : List (Nat × α)) (k : Nat) (v : α) :
    (updateAssoc l k v).map Prod.fst = l.map Prod.fst := by
  induction l with
  | nil => rfl
  | cons e rest ih =>
    obtain ⟨k', v'⟩ := e
    by_cases hk : k' = k
    · simp [updateAssoc, hk]
    · simp [updateAssoc, hk, ih]

theorem mem_updateAssoc {α : Type} (l : List (Nat × α)) (k : Nat) (v : α)
    (p : Nat) (b : α) (h : (p, b) ∈ updateAssoc l k v) :
    (p, b) ∈ l ∨ (p = k ∧ b = v) := by
  induction l with
  | nil => simp [updateAssoc] at h
  | cons e rest ih =>
    obtain ⟨k', v'⟩ := e
    simp only [updateAssoc] at h
    by_cases hk : k' = k
    · rw [if_pos hk] at h
      subst hk
      rcases List.mem_cons.mp h with h1 | h1
      · exact Or.inr ⟨congrArg Prod.fst h1, congrArg Prod.snd h1⟩
      · exact Or.inl (List.mem_cons_of_mem _ h1)
    · rw [if_neg hk] at h
      rcases List.mem_cons.mp h with h1 | h1
      · exact Or.inl (by rw [h1]; exact List.mem_cons_self _ _)
      · rcases ih h1 with h2 | h2
        · exact Or.inl (List.mem_cons_of_mem _ h2)
        · exact Or.inr h2

theorem addDocToBuilder_partitionId (b : IndexedSplitBuilder) (doc : ProcessedDoc) :
    (addDocToBuilder b doc).splitAttrs.partitionId = b.splitAttrs.partitionId := rfl

theorem addDocToBuilder_numDocs (b : IndexedSplitBuilder) (doc : ProcessedDoc) :
    (addDocToBuilder b doc).splitAttrs.numDocs = b.splitAttrs.numDocs + 1 := rfl

theorem processKeys_mono (maxP : Nat) :
    ∀ (ps K : List Nat) (x : Nat), x ∈ K → x ∈ processKeys maxP K ps := by
  intro ps
  induction ps with
  | nil => intro K x hx; exact hx
  | cons k rest ih =>
    intro K x hx
    simp only [processKeys]
    by_cases hk : k ∈ K
    · rw [if_pos hk]; exact ih K x hx
    · rw [if_neg hk]
      by_cases hlen : maxP ≤ K.length
      · rw [if_pos hlen]; exact ih K x hx
      · rw [if_neg hlen]
        exact ih (K ++ [k]) x (List.mem_append_left _ hx)

theorem processKeys_full (maxP : Nat) :
    ∀ (ps K : List Nat), maxP ≤ K.length → processKeys maxP K ps = K := by
  intro ps
  induction ps with
  | nil => intro K _; rfl
  | cons k rest ih =>
    intro K hlen
    simp only [processKeys]
    by_cases hk : k ∈ K
    · rw [if_pos hk]; exact ih K hlen
    · rw [if_neg hk, if_pos hlen]; exact ih K hlen

theorem processKeys_eq_take_newKeys (maxP : Nat) :
    ∀ (ps K : List Nat), K.length ≤ maxP →
      processKeys maxP K ps = (K ++ newKeys K ps).take maxP := by
  intro ps
  induction ps with
  | nil =>
    intro K hlen
    simp only [processKeys, newKeys, List.append_nil]
    exact (List.take_of_length_le hlen).symm
  | cons k rest ih =>
    intro K hlen
    simp only [processKeys, newKeys]
    by_cases hk : k ∈ K
    · rw [if_pos hk, if_pos hk]
      exact ih K hlen
    · rw [if_neg hk, if_neg hk]
      by_cases hfull : maxP ≤ K.length
      · rw [if_pos hfull]
        have hK : K.length = maxP := le_antisymm hlen hfull
        rw [processKeys_full maxP rest K hfull]
        rw [List.append_cons]
        rw [List.take_append_of_le_length (by rw [List.length_append]; omega)]
        rw [List.take_append_of_le_length (by omega)]
        exact (List.take_of_length_le hlen).symm
      · rw [if_neg hfull]
        have : (K ++ [k]).length ≤ maxP := by
          rw [List.length_append]
          simp only [List.length_cons, List.length_nil]
          omega
        rw [ih (K ++ [k]) this, List.append_assoc]
        rfl

theorem newKeys_subset (x : Nat) :
    ∀ (ps seen : List Nat), x ∈ newKeys seen ps → x ∈ ps := by
  intro ps
  induction ps with
  | nil => intro seen h; simp [newKeys] at h
  | cons k rest ih =>
    intro seen h
    simp only [newKeys] at h
    by_cases hk : k ∈ seen
    · rw [if_pos hk] at h
      exact List.mem_cons_of_mem _ (ih seen h)
    · rw [if_neg hk] at h
      rcases List.mem_cons.mp h with h' | h'
      · rw [h']; exact List.mem_cons_self _ _
      · exact List.mem_cons_of_mem _ (ih (seen ++ [k]) h')

theorem newKeys_nodup :
    ∀ (ps seen : List Nat),
      (newKeys seen ps).Nodup ∧ ∀ x ∈ newKeys seen ps, x ∉ seen := by
  intro ps
  induction ps with
  | nil => intro seen; simp [newKeys]
  | cons k rest ih =>
    intro seen
    simp only [newKeys]
    by_cases hk : k ∈ seen
    · rw [if_pos hk]
      exact ih seen
    · rw [if_neg hk]
      obtain ⟨hnd, hnotin⟩ := ih (seen ++ [k])
      refine ⟨List.nodup_cons.mpr ⟨?_, hnd⟩, ?_⟩
      · intro hmem
        exact hnotin k hmem (List.mem_append_right _ (List.mem_singleton.mpr rfl))
      · intro x hx
        rcases List.mem_cons.mp hx with h' | h'
        · rw [h']; exact hk
        · intro hxs
          exact hnotin x h' (List.mem_append_left _ hxs)

theorem updateAssoc_length {α : Type} (l : List (Nat × α)) (k : Nat) (v : α) :
    (updateAssoc l k v).length = l.length := by
  induction l with
  | nil => rfl
  | cons e rest ih =>
    obtain ⟨k', v'⟩ := e
    by_cases hk : k' = k
    · simp [updateAssoc, hk]
    · simp [updateAssoc, hk, ih]

/-- The final key set of the workbench's per-partition builders after the
documents are routed. -/
def routedKeys (cfg : IndexerConfig) (wb : IndexingWorkbench)
    (docs : List ProcessedDoc) : List Nat :=
  processKeys cfg.maxNumPartitions (wb.indexedSplits.map Prod.fst)
    (docs.map ProcessedDoc.partition)

/-- The number of documents whose partition is outside the key set `K`
(i.e. the documents routed to the overflow builder). -/
def countNotIn (K : List Nat) (docs : List ProcessedDoc) : Nat :=
  docs.countP (fun d => decide (d.partition ∉ K))

/-- The routing invariant of the document loop: processing documents from a
workbench whose builder keys are within the partition cap (and correctly
keyed) yields (i) builder keys evolving exactly as `processKeys`,
(ii) builders still keyed by their own partition id, and (iii) an overflow
builder that absorbs exactly the documents whose partition is outside the
final key set, created with `OTHER_PARTITION_ID` on first overflow. -/
theorem processDocs_routing (cfg : IndexerConfig) :
    ∀ (docs : List ProcessedDoc) (wb : IndexingWorkbench) (c : IndexerCounters),
      wb.indexedSplits.length ≤ cfg.maxNumPartitions →
      (∀ k b, (k, b) ∈ wb.indexedSplits → b.splitAttrs.partitionId = k) →
      ((processDocs cfg wb c docs).1.indexedSplits.map Prod.fst =
        routedKeys cfg wb docs) ∧
      (∀ k b, (k, b) ∈ (processDocs cfg wb c docs).1.indexedSplits →
        b.splitAttrs.partitionId = k) ∧
      (∀ ob, wb.otherIndexedSplitOpt = some ob →
        ∃ ob', (processDocs cfg wb c docs).1.otherIndexedSplitOpt = some ob' ∧
          ob'.splitAttrs.partitionId = ob.splitAttrs.partitionId ∧
          ob'.splitAttrs.numDocs =
            ob.splitAttrs.numDocs + countNotIn (routedKeys cfg wb docs) docs) ∧
      (wb.otherIndexedSplitOpt = none →
        (countNotIn (routedKeys cfg wb docs) docs = 0 →
          (processDocs cfg wb c docs).1.otherIndexedSplitOpt = none) ∧
        (countNotIn (routedKeys cfg wb docs) docs ≠ 0 →
          ∃ ob', (processDocs cfg wb c docs).1.otherIndexedSplitOpt = some ob' ∧
            ob'.splitAttrs.partitionId = OTHER_PARTITION_ID ∧
            ob'.splitAttrs.numDocs = countNotIn (routedKeys cfg wb docs) docs)) := by
  intro docs
  induction docs with
  | nil =>
    intro wb c hlen hinv
    refine ⟨rfl, hinv, ?_, ?_⟩
    · intro ob hob
      exact ⟨ob, hob, rfl, by simp [countNotIn]⟩
    · intro hnone
      refine ⟨fun _ => hnone, fun hr => ?_⟩
      simp [countNotIn] at hr
  | cons doc rest ih =>
    intro wb c hlen hinv
    simp only [processDocs]
    cases hl : lookupAssoc wb.indexedSplits doc.partition with
    | some b =>
      have hwb1 : processDoc cfg wb doc =
          { wb with
            indexedSplits :=
              updateAssoc wb.indexedSplits doc.partition (addDocToBuilder b doc)
            memoryUsage := wb.memoryUsage + doc.memDelta } := by
        simp only [processDoc, hl]
      have hkK : doc.partition ∈ wb.indexedSplits.map Prod.fst :=
        List.mem_map.mpr ⟨(doc.partition, b), lookupAssoc_mem _ _ _ hl, rfl⟩
      have hlen1 : (updateAssoc wb.indexedSplits doc.partition
          (addDocToBuilder b doc)).length ≤ cfg.maxNumPartitions := by
        rw [updateAssoc_length]; exact hlen
      have hinv1 : ∀ k b', (k, b') ∈ updateAssoc wb.indexedSplits doc.partition
          (addDocToBuilder b doc) → b'.splitAttrs.partitionId = k := by
        intro k b' hmem
        rcases mem_updateAssoc _ _ _ _ _ hmem with h' | h'
        · exact hinv k b' h'
        · rw [h'.2, h'.1, addDocToBuilder_partitionId]
          exact hinv doc.partition b (lookupAssoc_mem _ _ _ hl)
      have hkeys : routedKeys cfg wb (doc :: rest) =
          routedKeys cfg (processDoc cfg wb doc) rest := by
        rw [hwb1]
        simp only [routedKeys, List.map_cons, processKeys, updateAssoc_map_fst]
        rw [if_pos hkK]
      have hmono : doc.partition ∈ routedKeys cfg (processDoc cfg wb doc) rest := by
        rw [hwb1]
        simp only [routedKeys, updateAssoc_map_fst]
        exact processKeys_mono _ _ _ _ hkK
      have hcnt : countNotIn (routedKeys cfg wb (doc :: rest)) (doc :: rest) =
          countNotIn (routedKeys cfg (processDoc cfg wb doc) rest) rest := by
        rw [hkeys]
        simp [countNotIn, List.countP_cons, hmono]
      obtain ⟨ih1, ih2, ih3, ih4⟩ :=
        ih (processDoc cfg wb doc)
          { c with numDocsInWorkbench := c.numDocsInWorkbench + 1 }
          (by rw [hwb1]; exact hlen1) (by rw [hwb1]; exact hinv1)
      refine ⟨by rw [ih1, hkeys], ih2, ?_, ?_⟩
      · intro ob hob
        have hob1 : (processDoc cfg wb doc).otherIndexedSplitOpt = some ob := by
          rw [hwb1]; exact hob
        obtain ⟨ob', h1, h2, h3⟩ := ih3 ob hob1
        exact ⟨ob', h1, h2, by rw [hcnt]; exact h3⟩
      · intro hnone
        have hnone1 : (processDoc cfg wb doc).otherIndexedSplitOpt = none := by
          rw [hwb1]; exact hnone
        obtain ⟨ihz, ihnz⟩ := ih4 hnone1
        refine ⟨fun hz => ihz (by rw [hcnt] at hz; exact hz), fun hnz => ?_⟩
        obtain ⟨ob', h1, h2, h3⟩ := ihnz (by rw [hcnt] at hnz; exact hnz)
        exact ⟨ob', h1, h2, by rw [hcnt]; exact h3⟩
    | none =>
      have hkK : doc.partition ∉ wb.indexedSplits.map Prod.fst :=
        (lookupAssoc_eq_none _ _).mp hl
      by_cases hfull : cfg.maxNumPartitions ≤ wb.indexedSplits.length
      · -- overflow: the document goes to the shared OTHER builder
        have hwb1 : processDoc cfg wb doc =
            { wb with
              otherIndexedSplitOpt := some (addDocToBuilder
                (wb.otherIndexedSplitOpt.getD
                  (newSplitBuilder OTHER_PARTITION_ID wb.lastDeleteOpstamp)) doc)
              memoryUsage := wb.memoryUsage + doc.memDelta } := by
          simp only [processDoc, hl]
          rw [if_pos hfull]
        have hlenK : cfg.maxNumPartitions ≤ (wb.indexedSplits.map Prod.fst).length := by
          rw [List.length_map]; exact hfull
        have hkeys : routedKeys cfg wb (doc :: rest) =
            routedKeys cfg (processDoc cfg wb doc) rest := by
          rw [hwb1]
          simp only [routedKeys, List.map_cons, processKeys]
          rw [if_neg hkK, if_pos hlenK]
        have hfin : routedKeys cfg (processDoc cfg wb doc) rest =
            wb.indexedSplits.map Prod.fst := by
          rw [hwb1]
          simp only [routedKeys]
          exact processKeys_full _ _ _ hlenK
        have hnotin : doc.partition ∉ routedKeys cfg (processDoc cfg wb doc) rest := by
          rw [hfin]; exact hkK
        have hcnt : countNotIn (routedKeys cfg wb (doc :: rest)) (doc :: rest) =
            countNotIn (routedKeys cfg (processDoc cfg wb doc) rest) rest + 1 := by
          rw [hkeys]
          simp [countNotIn, List.countP_cons, hnotin]
        obtain ⟨ih1, ih2, ih3, ih4⟩ :=
          ih (processDoc cfg wb doc)
            { c with numDocsInWorkbench := c.numDocsInWorkbench + 1 }
            (by rw [hwb1]; exact hlen) (by rw [hwb1]; exact hinv)
        refine ⟨by rw [ih1, hkeys], ih2, ?_, ?_⟩
        · intro ob hob
          have hob1 : (processDoc cfg wb doc).otherIndexedSplitOpt =
              some (addDocToBuilder ob doc) := by
            rw [hwb1]
            simp [hob]
          obtain ⟨ob', h1, h2, h3⟩ := ih3 (addDocToBuilder ob doc) hob1
          refine ⟨ob', h1, ?_, ?_⟩
          · rw [h2, addDocToBuilder_partitionId]
          · rw [hcnt, h3, addDocToBuilder_numDocs]
            omega
        · intro hnone
          have hob1 : (processDoc cfg wb doc).otherIndexedSplitOpt =
              some (addDocToBuilder
                (newSplitBuilder OTHER_PARTITION_ID wb.lastDeleteOpstamp) doc) := by
            rw [hwb1]
            simp [hnone]
          obtain ⟨ob', h1, h2, h3⟩ := ih3 _ hob1
          refine ⟨fun hz => ?_, fun _ => ?_⟩
          · rw [hcnt] at hz
            omega
          · refine ⟨ob', h1, ?_, ?_⟩
            · rw [h2, addDocToBuilder_partitionId]
              rfl
            · rw [hcnt, h3, addDocToBuilder_numDocs]
              simp only [newSplitBuilder]
              omega
      · -- a fresh partition with room: a dedicated builder is created
        have hwb1 : processDoc cfg wb doc =
            { wb with
              indexedSplits := wb.indexedSplits ++
                [(doc.partition, addDocToBuilder
                  (newSplitBuilder doc.partition wb.lastDeleteOpstamp) doc)]
              memoryUsage := wb.memoryUsage + doc.memDelta } := by
          simp only [processDoc, hl]
          rw [if_neg hfull]
        have hlenK : ¬ cfg.maxNumPartitions ≤ (wb.indexedSplits.map Prod.fst).length := by
          rw [List.length_map]; exact hfull
        have hkeys : routedKeys cfg wb (doc :: rest) =
            routedKeys cfg (processDoc cfg wb doc) rest := by
          rw [hwb1]
          simp only [routedKeys, List.map_cons, processKeys, List.map_append]
          rw [if_neg hkK, if_neg hlenK]
          rfl
        have hmono : doc.partition ∈ routedKeys cfg (processDoc cfg wb doc) rest := by
          rw [hwb1]
          simp only [routedKeys, List.map_append]
          refine processKeys_mono _ _ _ _ ?_
          simp
        have hcnt : countNotIn (routedKeys cfg wb (doc :: rest)) (doc :: rest) =
            countNotIn (routedKeys cfg (processDoc cfg wb doc) rest) rest := by
          rw [hkeys]
          simp [countNotIn, List.countP_cons, hmono]
        have hlen1 : (wb.indexedSplits ++
            [(doc.partition, addDocToBuilder
              (newSplitBuilder doc.partition wb.lastDeleteOpstamp) doc)]).length ≤
            cfg.maxNumPartitions := by
          rw [List.length_append]
          simp only [List.length_cons, List.length_nil]
          omega
        have hinv1 : ∀ k b', (k, b') ∈ wb.indexedSplits ++
            [(doc.partition, addDocToBuilder
              (newSplitBuilder doc.partition wb.lastDeleteOpstamp) doc)] →
            b'.splitAttrs.partitionId = k := by
          intro k b' hmem
          rcases List.mem_append.mp hmem with h' | h'
          · exact hinv k b' h'
          · have h'' := List.mem_singleton.mp h'
            simp only [Prod.mk.injEq] at h''
            rw [h''.2, h''.1]
            rfl
        obtain ⟨ih1, ih2, ih3, ih4⟩ :=
          ih (processDoc cfg wb doc)
            { c with numDocsInWorkbench := c.numDocsInWorkbench + 1 }
            (by rw [hwb1]; exact hlen1) (by rw [hwb1]; exact hinv1)
        refine ⟨by rw [ih1, hkeys], ih2, ?_, ?_⟩
        · intro ob hob
          have hob1 : (processDoc cfg wb doc).otherIndexedSplitOpt = some ob := by
            rw [hwb1]; exact hob
          obtain ⟨ob', h1, h2, h3⟩ := ih3 ob hob1
          exact ⟨ob', h1, h2, by rw [hcnt]; exact h3⟩
        · intro hnone
          have hnone1 : (processDoc cfg wb doc).otherIndexedSplitOpt = none := by
            rw [hwb1]; exact hnone
          obtain ⟨ihz, ihnz⟩ := ih4 hnone1
          refine ⟨fun hz => ihz (by rw [hcnt] at hz; exact hz), fun hnz => ?_⟩
          obtain ⟨ob', h1, h2, h3⟩ := ihnz (by rw [hcnt] at hnz; exact hnz)
          exact ⟨ob', h1, h2, by rw [hcnt]; exact h3⟩

/-- C5: within one workbench cycle, the builder keys are exactly the first
`max_num_partitions` distinct partition keys in order of first appearance,
each builder is keyed by its own partition id, and when the documents carry
more distinct keys than the cap, a single shared overflow builder exists,
carries `OTHER_PARTITION_ID`, and holds exactly the documents of every
further distinct key (those outside the first `max_num_partitions`). -/
theorem C5_partition_overflow_routing (cfg : IndexerConfig) (c : IndexerCounters)
    (docs : List ProcessedDoc) :
    ((processDocs cfg (emptyWorkbench cfg) c docs).1.indexedSplits.map Prod.fst =
      (firstOccurrences (docs.map ProcessedDoc.partition)).take cfg.maxNumPartitions) ∧
    (∀ k b, (k, b) ∈ (processDocs cfg (emptyWorkbench cfg) c docs).1.indexedSplits →
      b.splitAttrs.partitionId = k) ∧
    (cfg.maxNumPartitions < (firstOccurrences (docs.map ProcessedDoc.partition)).length →
      ∃ ob, (processDocs cfg (emptyWorkbench cfg) c docs).1.otherIndexedSplitOpt =
          some ob ∧
        ob.splitAttrs.partitionId = OTHER_PARTITION_ID ∧
        ob.splitAttrs.numDocs = countNotIn
          ((firstOccurrences (docs.map ProcessedDoc.partition)).take
            cfg.maxNumPartitions) docs) := by
  have hK : routedKeys cfg (emptyWorkbench cfg) docs =
      (firstOccurrences (docs.map ProcessedDoc.partition)).take cfg.maxNumPartitions := by
    simp only [routedKeys, emptyWorkbench, List.map_nil]
    rw [processKeys_eq_take_newKeys cfg.maxNumPartitions _ [] (by simp)]
    simp only [List.nil_append]
    rfl
  obtain ⟨ih1, ih2, _, ih4⟩ :=
    processDocs_routing cfg docs (emptyWorkbench cfg) c (by simp [emptyWorkbench])
      (by intro k b hmem; simp [emptyWorkbench] at hmem)
  refine ⟨by rw [ih1, hK], ih2, ?_⟩
  intro hover
  obtain ⟨ihz, ihnz⟩ := ih4 rfl
  have hcne : countNotIn (routedKeys cfg (emptyWorkbench cfg) docs) docs ≠ 0 := by
    rw [hK]
    have hdrop : 0 < ((firstOccurrences (docs.map ProcessedDoc.partition)).drop
        cfg.maxNumPartitions).length := by
      rw [List.length_drop]
      omega
    obtain ⟨x, hx⟩ := List.exists_mem_of_length_pos hdrop
    have hxfo : x ∈ firstOccurrences (docs.map ProcessedDoc.partition) :=
      List.mem_of_mem_drop hx
    have hxnotake : x ∉ (firstOccurrences (docs.map ProcessedDoc.partition)).take
        cfg.maxNumPartitions := by
      intro hxt
      exact List.disjoint_take_drop (newKeys_nodup (docs.map ProcessedDoc.partition) []).1
        le_rfl hxt hx
    have hxps : x ∈ docs.map ProcessedDoc.partition :=
      newKeys_subset x (docs.map ProcessedDoc.partition) [] hxfo
    obtain ⟨d, hd, hdx⟩ := List.mem_map.mp hxps
    have : 0 < countNotIn ((firstOccurrences (docs.map ProcessedDoc.partition)).take
        cfg.maxNumPartitions) docs := by
      refine List.countP_pos_iff.mpr ⟨d, hd, ?_⟩
      rw [hdx]
      exact decide_eq_true hxnotake
    omega
  obtain ⟨ob, h1, h2, h3⟩ := ihnz hcne
  exact ⟨ob, h1, h2, by rw [← hK]; exact h3⟩

/-- An example configuration with a partition cap of 2. -/
def cfgC : IndexerConfig :=
  { splitNumDocsTarget := 100, heapSize := 1000, maxNumPartitions := 2
    lastDeleteOpstamp := 7 }

/-- Example documents on partitions 1, 2, 3, 1: three distinct keys, one
more than `cfgC`'s cap. -/
def docsC : List ProcessedDoc :=
  [{ partition := 1, numBytes := 1, timestampOpt := none, memDelta := 0 },
   { partition := 2, numBytes := 1, timestampOpt := none, memDelta := 0 },
   { partition := 3, numBytes := 1, timestampOpt := none, memDelta := 0 },
   { partition := 1, numBytes := 1, timestampOpt := none, memDelta := 0 }]

theorem C5_witness :
    cfgC.maxNumPartitions <
      (firstOccurrences (docsC.map ProcessedDoc.partition)).length ∧
    ∃ ob, (processDocs cfgC (emptyWorkbench cfgC)
        Indexer.initial.counters docsC).1.otherIndexedSplitOpt = some ob ∧
      ob.splitAttrs.partitionId = OTHER_PARTITION_ID ∧
      ob.splitAttrs.numDocs = countNotIn
        ((firstOccurrences (docsC.map ProcessedDoc.partition)).take
          cfgC.maxNumPartitions) docsC := by
  have h := C5_partition_overflow_routing cfgC Indexer.initial.counters docsC
  exact ⟨by decide, h.2.2 (by decide)⟩

/-! ### Document accounting for the commit-trigger claim -/

/-- Total number of documents across a sequence of batches. -/
def totalDocs (batches : List ProcessedDocBatch) : Nat :=
  (batches.map (fun b => b.docs.length)).sum

/-- Total number of documents across a list of split builders. -/
def buildersDocCount (splits : List IndexedSplitBuilder) : Nat :=
  (splits.map (fun b => b.splitAttrs.numDocs)).sum

/-- Total number of documents held by a workbench's builders (including the
overflow builder). -/
def wbDocCount (wb : IndexingWorkbench) : Nat :=
  buildersDocCount (wb.indexedSplits.map Prod.snd ++ wb.otherIndexedSplitOpt.toList)

/-- Total number of documents held by the indexer's workbench, if any. -/
def stateDocCount (st : Indexer) : Nat :=
  match st.workbenchOpt with
  | some wb => wbDocCount wb
  | none => 0

/-- The invariant maintained along a run of accepted batches: the publish
lock is alive, the tantivy memory accounting is at zero (all documents carry
zero memory deltas in the runs considered), and the builders hold exactly
`num_docs_in_workbench` documents. -/
def RunInv (st : Indexer) : Prop :=
  st.publishLockDead = false ∧
  st.memory_usage = 0 ∧
  stateDocCount st = st.counters.numDocsInWorkbench

theorem processDocs_counters (cfg : IndexerConfig) :
    ∀ (docs : List ProcessedDoc) (wb : IndexingWorkbench) (c : IndexerCounters),
      (processDocs cfg wb c docs).2 =
        { c with numDocsInWorkbench := c.numDocsInWorkbench + docs.length } := by
  intro docs
  induction docs with
  | nil => intro wb c; simp [processDocs]
  | cons doc rest ih =>
    intro wb c
    simp only [processDocs]
    rw [ih]
    simp only [List.length_cons]
    congr 1
    omega

theorem buildersDocCount_append (l₁ l₂ : List IndexedSplitBuilder) :
    buildersDocCount (l₁ ++ l₂) = buildersDocCount l₁ + buildersDocCount l₂ := by
  simp [buildersDocCount]

theorem updateAssoc_docCount (l : List (Nat × IndexedSplitBuilder)) (k : Nat)
    (b : IndexedSplitBuilder) (doc : ProcessedDoc)
    (h : lookupAssoc l k = some b) :
    buildersDocCount ((updateAssoc l k (addDocToBuilder b doc)).map Prod.snd) =
      buildersDocCount (l.map Prod.snd) + 1 := by
  induction l with
  | nil => simp [lookupAssoc] at h
  | cons e rest ih =>
    obtain ⟨k', v⟩ := e
    by_cases hk : k' = k
    · simp only [lookupAssoc, if_pos hk] at h
      cases h
      simp only [updateAssoc, if_pos hk, List.map_cons]
      simp [buildersDocCount, addDocToBuilder]
      omega
    · simp only [lookupAssoc, if_neg hk] at h
      simp only [updateAssoc, if_neg hk, List.map_cons]
      simp only [buildersDocCount, List.map_cons, List.sum_cons] at *
      rw [ih h]
      omega

theorem processDoc_docCount (cfg : IndexerConfig) (wb : IndexingWorkbench)
    (doc : ProcessedDoc) :
    wbDocCount (processDoc cfg wb doc) = wbDocCount wb + 1 := by
  cases hl : lookupAssoc wb.indexedSplits doc.partition with
  | some b =>
    simp only [processDoc, hl, wbDocCount]
    rw [buildersDocCount_append, buildersDocCount_append,
      updateAssoc_docCount _ _ _ _ hl]
    omega
  | none =>
    simp only [processDoc, hl]
    by_cases hfull : cfg.maxNumPartitions ≤ wb.indexedSplits.length
    · rw [if_pos hfull]
      simp only [wbDocCount]
      rw [buildersDocCount_append, buildersDocCount_append]
      cases hob : wb.otherIndexedSplitOpt with
      | some ob =>
        simp [buildersDocCount, addDocToBuilder]
        omega
      | none =>
        simp [buildersDocCount, addDocToBuilder, newSplitBuilder]
    · rw [if_neg hfull]
      simp only [wbDocCount]
      rw [buildersDocCount_append, buildersDocCount_append]
      simp [buildersDocCount, addDocToBuilder, newSplitBuilder]
      omega

theorem processDocs_docCount (cfg : IndexerConfig) :
    ∀ (docs : List ProcessedDoc) (wb : IndexingWorkbench) (c : IndexerCounters),
      wbDocCount (processDocs cfg wb c docs).1 = wbDocCount wb + docs.length := by
  intro docs
  induction docs with
  | nil => intro wb c; simp [processDocs]
  | cons doc rest ih =>
    intro wb c
    simp only [processDocs]
    rw [ih, processDoc_docCount]
    simp only [List.length_cons]
    omega

theorem processDoc_memory (cfg : IndexerConfig) (wb : IndexingWorkbench)
    (doc : ProcessedDoc) :
    (processDoc cfg wb doc).memoryUsage = wb.memoryUsage + doc.memDelta := by
  cases hl : lookupAssoc wb.indexedSplits doc.partition with
  | some b => simp [processDoc, hl]
  | none =>
    simp only [processDoc, hl]
    by_cases hfull : cfg.maxNumPartitions ≤ wb.indexedSplits.length
    · rw [if_pos hfull]
    · rw [if_neg hfull]

theorem processDocs_memory (cfg : IndexerConfig) :
    ∀ (docs : List ProcessedDoc) (wb : IndexingWorkbench) (c : IndexerCounters),
      (∀ d ∈ docs, d.memDelta = 0) →
      (processDocs cfg wb c docs).1.memoryUsage = wb.memoryUsage := by
  intro docs
  induction docs with
  | nil => intro wb c _; rfl
  | cons doc rest ih =>
    intro wb c hz
    simp only [processDocs]
    rw [ih _ _ (fun d hd => hz d (List.mem_cons_of_mem _ hd)),
      processDoc_memory, hz doc (List.mem_cons_self _ _)]
    omega

/-- On a live lock, a successful `IndexerState::index_batch` is exactly:
extend the delta (successfully), then run the document loop. -/
theorem index_batch_ok_shape (cfg : IndexerConfig) (st : Indexer)
    (batch : ProcessedDocBatch) (st1 : Indexer)
    (hlock : st.publishLockDead = false)
    (hok : IndexerState.index_batch cfg st batch = .ok st1) :
    ∃ d', SourceCheckpointDelta.extend
        (Indexer.get_or_create_workbench cfg st).checkpointDelta
        batch.checkpointDelta = .ok d' ∧
      st1 = { st with
        workbenchOpt := some (processDocs cfg
          { Indexer.get_or_create_workbench cfg st with checkpointDelta := d' }
          st.counters batch.docs).1
        counters := (processDocs cfg
          { Indexer.get_or_create_workbench cfg st with checkpointDelta := d' }
          st.counters batch.docs).2 } := by
  simp only [IndexerState.index_batch, hlock, Bool.false_eq_true, if_false] at hok
  cases hext : SourceCheckpointDelta.extend
      (Indexer.get_or_create_workbench cfg st).checkpointDelta
      batch.checkpointDelta with
  | error e => rw [hext] at hok; cases hok
  | ok d' =>
    rw [hext] at hok
    dsimp only at hok
    refine ⟨d', rfl, ?_⟩
    cases hok
    rw [hlock]

/-- When no trigger condition holds, the commit-trigger block is a no-op. -/
theorem commit_triggers_no_emit (cfg : IndexerConfig) (st1 : Indexer)
    (hmem : st1.memory_usage = 0) (hheap : 0 < cfg.heapSize)
    (hbelow : st1.counters.numDocsInWorkbench < cfg.splitNumDocsTarget) :
    Indexer.commit_triggers cfg st1 false = (st1, []) := by
  have h1 : ¬ cfg.heapSize ≤ st1.memory_usage := by omega
  have h2 : ¬ cfg.splitNumDocsTarget ≤ st1.counters.numDocsInWorkbench := by omega
  simp [Indexer.commit_triggers, if_neg h1, if_neg h2]

/-- The splits extracted from a workbench by `send_to_serializer`. -/
def emittedSplits (wb1 : IndexingWorkbench) : List IndexedSplitBuilder :=
  wb1.indexedSplits.map Prod.snd ++ wb1.otherIndexedSplitOpt.toList

/-- The indexer state right after a sealed split batch was emitted. -/
def afterEmitState (st1 : Indexer) (wb1 : IndexingWorkbench) : Indexer :=
  { st1 with
    workbenchOpt := none
    counters :=
      { numDocsInWorkbench := 0
        numSplitsEmitted := st1.counters.numSplitsEmitted + (emittedSplits wb1).length
        numSplitBatchesEmitted := st1.counters.numSplitBatchesEmitted + 1 } }

/-- When only `NumDocsLimit` holds, the commit-trigger block emits exactly
the sealed split batch of the current workbench and resets the doc
counter. -/
theorem commit_triggers_emit (cfg : IndexerConfig) (st1 : Indexer)
    (wb1 : IndexingWorkbench) (hwb : st1.workbenchOpt = some wb1)
    (hmem : st1.memory_usage = 0) (hheap : 0 < cfg.heapSize)
    (hcross : cfg.splitNumDocsTarget ≤ st1.counters.numDocsInWorkbench)
    (hcnt : wbDocCount wb1 = st1.counters.numDocsInWorkbench)
    (hT : 0 < cfg.splitNumDocsTarget) :
    Indexer.commit_triggers cfg st1 false =
      (afterEmitState st1 wb1,
       [SerializerMsg.splitBatch (emittedSplits wb1)
         wb1.checkpointDelta .numDocsLimit]) := by
  have h1 : ¬ cfg.heapSize ≤ st1.memory_usage := by omega
  have hne : (wb1.indexedSplits.map Prod.snd ++
      wb1.otherIndexedSplitOpt.toList).isEmpty = false := by
    cases hsp : wb1.indexedSplits.map Prod.snd ++ wb1.otherIndexedSplitOpt.toList with
    | nil =>
      exfalso
      rw [wbDocCount, hsp] at hcnt
      simp [buildersDocCount] at hcnt
      omega
    | cons a l => rfl
  simp [Indexer.commit_triggers, if_neg h1, if_pos hcross,
    Indexer.send_to_serializer, hwb, hne, afterEmitState, emittedSplits]

/-- The lazily-created workbench carries no tantivy memory when the
indexer's accounting is at zero. -/
theorem get_or_create_memory (cfg : IndexerConfig) (st : Indexer)
    (hmem0 : st.memory_usage = 0) :
    (Indexer.get_or_create_workbench cfg st).memoryUsage = 0 := by
  cases hwb : st.workbenchOpt with
  | some wb =>
    simp only [Indexer.memory_usage, hwb] at hmem0
    simp [Indexer.get_or_create_workbench, hwb, hmem0]
  | none => simp [Indexer.get_or_create_workbench, hwb, emptyWorkbench]

/-- The lazily-created workbench holds exactly `num_docs_in_workbench`
documents when the doc-count invariant holds. -/
theorem get_or_create_docCount (cfg : IndexerConfig) (st : Indexer)
    (hcount : stateDocCount st = st.counters.numDocsInWorkbench) :
    wbDocCount (Indexer.get_or_create_workbench cfg st) =
      st.counters.numDocsInWorkbench := by
  cases hwb : st.workbenchOpt with
  | some wb =>
    simp only [stateDocCount, hwb] at hcount
    simp [Indexer.get_or_create_workbench, hwb, hcount]
  | none =>
    simp only [stateDocCount, hwb] at hcount
    rw [← hcount]
    simp [Indexer.get_or_create_workbench, hwb, emptyWorkbench, wbDocCount,
      buildersDocCount]

/-- A batch whose documents keep the counter strictly below
`split_num_docs_target` is indexed without any emission. -/
theorem step_no_emit (cfg : IndexerConfig) (st st' : Indexer)
    (batch : ProcessedDocBatch) (msgs : List SerializerMsg)
    (hInv : RunInv st) (hforce : batch.forceCommit = false)
    (hmemz : ∀ d ∈ batch.docs, d.memDelta = 0) (hheap : 0 < cfg.heapSize)
    (hok : Indexer.index_batch cfg st batch = .ok (st', msgs))
    (hbelow : st.counters.numDocsInWorkbench + batch.docs.length <
      cfg.splitNumDocsTarget) :
    msgs = [] ∧ RunInv st' ∧
    st'.counters.numDocsInWorkbench =
      st.counters.numDocsInWorkbench + batch.docs.length ∧
    st'.counters.numSplitBatchesEmitted = st.counters.numSplitBatchesEmitted := by
  obtain ⟨hlock, hmem0, hcount⟩ := hInv
  cases hstate : IndexerState.index_batch cfg st batch with
  | error e =>
    simp only [Indexer.index_batch, hstate] at hok
    simp at hok
  | ok st1 =>
    simp only [Indexer.index_batch, hstate] at hok
    rw [hforce] at hok
    obtain ⟨d', hext, hst1⟩ := index_batch_ok_shape cfg st batch st1 hlock hstate
    have hm1 : st1.memory_usage = 0 := by
      rw [hst1]
      simp only [Indexer.memory_usage]
      rw [processDocs_memory cfg batch.docs _ _ hmemz]
      exact get_or_create_memory cfg st hmem0
    have hc1 : st1.counters.numDocsInWorkbench =
        st.counters.numDocsInWorkbench + batch.docs.length := by
      rw [hst1]
      simp [processDocs_counters]
    have hc1' : st1.counters.numSplitBatchesEmitted =
        st.counters.numSplitBatchesEmitted := by
      rw [hst1]
      simp [processDocs_counters]
    have hbelow1 : st1.counters.numDocsInWorkbench < cfg.splitNumDocsTarget := by
      omega
    rw [commit_triggers_no_emit cfg st1 hm1 hheap hbelow1] at hok
    injection hok with hok
    have hstEq : st1 = st' := congrArg Prod.fst hok
    have hmsgs : msgs = [] := (congrArg Prod.snd hok).symm
    subst hstEq
    refine ⟨hmsgs, ?_, by omega, by omega⟩
    refine ⟨by rw [hst1]; exact hlock, hm1, ?_⟩
    rw [hst1]
    simp only [stateDocCount]
    rw [processDocs_docCount]
    have hwbc : wbDocCount { Indexer.get_or_create_workbench cfg st with
        checkpointDelta := d' } = wbDocCount (Indexer.get_or_create_workbench cfg st) :=
      rfl
    rw [hwbc, get_or_create_docCount cfg st hcount]
    simp [processDocs_counters]

/-- A batch whose documents lift the counter to `split_num_docs_target`
triggers exactly one `NumDocsLimit` emission carrying all counted
documents, and resets the workbench. -/
theorem step_emit (cfg : IndexerConfig) (st st' : Indexer)
    (batch : ProcessedDocBatch) (msgs : List SerializerMsg)
    (hInv : RunInv st) (hforce : batch.forceCommit = false)
    (hmemz : ∀ d ∈ batch.docs, d.memDelta = 0) (hheap : 0 < cfg.heapSize)
    (hT : 0 < cfg.splitNumDocsTarget)
    (hok : Indexer.index_batch cfg st batch = .ok (st', msgs))
    (hcross : cfg.splitNumDocsTarget ≤
      st.counters.numDocsInWorkbench + batch.docs.length) :
    (∃ splits delta,
      msgs = [SerializerMsg.splitBatch splits delta CommitTrigger.numDocsLimit] ∧
      buildersDocCount splits =
        st.counters.numDocsInWorkbench + batch.docs.length) ∧
    RunInv st' ∧
    st'.workbenchOpt = none ∧
    st'.counters.numDocsInWorkbench = 0 ∧
    st'.counters.numSplitBatchesEmitted =
      st.counters.numSplitBatchesEmitted + 1 := by
  obtain ⟨hlock, hmem0, hcount⟩ := hInv
  cases hstate : IndexerState.index_batch cfg st batch with
  | error e =>
    simp only [Indexer.index_batch, hstate] at hok
    simp at hok
  | ok st1 =>
    simp only [Indexer.index_batch, hstate] at hok
    rw [hforce] at hok
    obtain ⟨d', hext, hst1⟩ := index_batch_ok_shape cfg st batch st1 hlock hstate
    have hm1 : st1.memory_usage = 0 := by
      rw [hst1]
      simp only [Indexer.memory_usage]
      rw [processDocs_memory cfg batch.docs _ _ hmemz]
      exact get_or_create_memory cfg st hmem0
    have hc1 : st1.counters.numDocsInWorkbench =
        st.counters.numDocsInWorkbench + batch.docs.length := by
      rw [hst1]
      simp [processDocs_counters]
    have hc1' : st1.counters.numSplitBatchesEmitted =
        st.counters.numSplitBatchesEmitted := by
      rw [hst1]
      simp [processDocs_counters]
    have hwb1 : st1.workbenchOpt = some (processDocs cfg
        { Indexer.get_or_create_workbench cfg st with checkpointDelta := d' }
        st.counters batch.docs).1 := by
      rw [hst1]
    have hwbcnt : wbDocCount (processDocs cfg
        { Indexer.get_or_create_workbench cfg st with checkpointDelta := d' }
        st.counters batch.docs).1 = st1.counters.numDocsInWorkbench := by
      rw [processDocs_docCount]
      have hwbc : wbDocCount { Indexer.get_or_create_workbench cfg st with
          checkpointDelta := d' } =
          wbDocCount (Indexer.get_or_create_workbench cfg st) := rfl
      rw [hwbc, get_or_create_docCount cfg st hcount, hc1]
    have hcross1 : cfg.splitNumDocsTarget ≤ st1.counters.numDocsInWorkbench := by
      omega
    rw [commit_triggers_emit cfg st1 _ hwb1 hm1 hheap hcross1 hwbcnt hT] at hok
    injection hok with hok
    have hstEq : afterEmitState st1 (processDocs cfg
        { Indexer.get_or_create_workbench cfg st with checkpointDelta := d' }
        st.counters batch.docs).1 = st' := congrArg Prod.fst hok
    have hmsgs : msgs = [SerializerMsg.splitBatch (emittedSplits (processDocs cfg
        { Indexer.get_or_create_workbench cfg st with checkpointDelta := d' }
        st.counters batch.docs).1) (processDocs cfg
        { Indexer.get_or_create_workbench cfg st with checkpointDelta := d' }
        st.counters batch.docs).1.checkpointDelta CommitTrigger.numDocsLimit] :=
      (congrArg Prod.snd hok).symm
    subst hstEq
    refine ⟨⟨emittedSplits _, _, hmsgs, ?_⟩, ?_, ?_, ?_, ?_⟩
    · have hbc : buildersDocCount (emittedSplits (processDocs cfg
          { Indexer.get_or_create_workbench cfg st with checkpointDelta := d' }
          st.counters batch.docs).1) = wbDocCount (processDocs cfg
          { Indexer.get_or_create_workbench cfg st with checkpointDelta := d' }
          st.counters batch.docs).1 := rfl
      rw [hbc, hwbcnt, hc1]
    · refine ⟨by simp only [afterEmitState]; rw [hst1]; exact hlock, ?_, ?_⟩
      · simp [afterEmitState, Indexer.memory_usage]
      · simp [afterEmitState, stateDocCount]
    · simp [afterEmitState]
    · simp [afterEmitState]
    · simp only [afterEmitState]
      omega

theorem totalDocs_cons (b : ProcessedDocBatch) (l : List ProcessedDocBatch) :
    totalDocs (b :: l) = b.docs.length + totalDocs l := by
  simp [totalDocs]

/-- While the cumulative accepted documents stay strictly below the target,
a run of accepted batches emits nothing and just accumulates the counter. -/
theorem run_below (cfg : IndexerConfig) :
    ∀ (batches : List ProcessedDocBatch) (st st' : Indexer)
      (msgs : List SerializerMsg),
      RunInv st →
      (∀ b ∈ batches, b.forceCommit = false ∧ ∀ d ∈ b.docs, d.memDelta = 0) →
      0 < cfg.heapSize →
      Indexer.runBatches cfg st batches = .ok (st', msgs) →
      st.counters.numDocsInWorkbench + totalDocs batches <
        cfg.splitNumDocsTarget →
      msgs = [] ∧ RunInv st' ∧
      st'.counters.numDocsInWorkbench =
        st.counters.numDocsInWorkbench + totalDocs batches ∧
      st'.counters.numSplitBatchesEmitted =
        st.counters.numSplitBatchesEmitted := by
  intro batches
  induction batches with
  | nil =>
    intro st st' msgs hInv _ _ hok _
    simp only [Indexer.runBatches] at hok
    injection hok with hok
    have hstEq : st = st' := congrArg Prod.fst hok
    have hmsgs : msgs = [] := (congrArg Prod.snd hok).symm
    subst hstEq
    refine ⟨hmsgs, hInv, ?_, rfl⟩
    simp [totalDocs]
  | cons b rest ih =>
    intro st st' msgs hInv hside hheap hok hbelow
    simp only [Indexer.runBatches] at hok
    cases hb : Indexer.index_batch cfg st b with
    | error e => rw [hb] at hok; simp at hok
    | ok p =>
      obtain ⟨st1, m1⟩ := p
      rw [hb] at hok
      dsimp only at hok
      cases hr : Indexer.runBatches cfg st1 rest with
      | error e => rw [hr] at hok; simp at hok
      | ok q =>
        obtain ⟨st2, m2⟩ := q
        rw [hr] at hok
        dsimp only at hok
        injection hok with hok
        have hstEq : st2 = st' := congrArg Prod.fst hok
        have hmsgs : msgs = m1 ++ m2 := (congrArg Prod.snd hok).symm
        subst hstEq
        rw [totalDocs_cons] at hbelow
        obtain ⟨hbf, hbm⟩ := hside b (List.mem_cons_self _ _)
        obtain ⟨hm1, hInv1, hc1, hb1⟩ :=
          step_no_emit cfg st st1 b m1 hInv hbf hbm hheap hb (by omega)
        obtain ⟨hm2, hInv2, hc2, hb2⟩ :=
          ih st1 st2 m2 hInv1
            (fun b' hb' => hside b' (List.mem_cons_of_mem _ hb')) hheap hr
            (by omega)
        refine ⟨by rw [hmsgs, hm1, hm2]; rfl, hInv2, ?_, by omega⟩
        rw [totalDocs_cons]
        omega

/-- A run over concatenated batch lists decomposes into two runs. -/
theorem runBatches_append (cfg : IndexerConfig) :
    ∀ (l₁ l₂ : List ProcessedDocBatch) (st st' : Indexer)
      (msgs : List SerializerMsg),
      Indexer.runBatches cfg st (l₁ ++ l₂) = .ok (st', msgs) →
      ∃ stm m1 m2, Indexer.runBatches cfg st l₁ = .ok (stm, m1) ∧
        Indexer.runBatches cfg stm l₂ = .ok (st', m2) ∧ msgs = m1 ++ m2 := by
  intro l₁
  induction l₁ with
  | nil =>
    intro l₂ st st' msgs hok
    exact ⟨st, [], msgs, rfl, hok, rfl⟩
  | cons b rest ih =>
    intro l₂ st st' msgs hok
    simp only [List.cons_append, Indexer.runBatches] at hok
    cases hb : Indexer.index_batch cfg st b with
    | error e => rw [hb] at hok; simp at hok
    | ok p =>
      obtain ⟨st1, m1⟩ := p
      rw [hb] at hok
      dsimp only at hok
      simp only [List.append_eq] at hok
      cases hr : Indexer.runBatches cfg st1 (rest ++ l₂) with
      | error e => rw [hr] at hok; simp at hok
      | ok q =>
        obtain ⟨st2, m2⟩ := q
        rw [hr] at hok
        dsimp only at hok
        injection hok with hok
        have hstEq : st2 = st' := congrArg Prod.fst hok
        have hmsgs : msgs = m1 ++ m2 := (congrArg Prod.snd hok).symm
        subst hstEq
        obtain ⟨stm, a1, a2, hrun1, hrun2, hm⟩ := ih l₂ st1 st2 m2 hr
        refine ⟨stm, m1 ++ a1, a2, ?_, hrun2, ?_⟩
        · simp only [Indexer.runBatches, hb, hrun1]
        · rw [hmsgs, hm, List.append_assoc]

/-- C1: over any run of accepted document batches (live lock, no force
commits, no memory pressure) in which the cumulative accepted documents
first reach `split_num_docs_target = T` while processing batch `bk` (the
batches before it, `pre`, stay strictly below `T`) and the batches after it
total fewer than `T` documents, the indexer emits exactly one sealed-split
batch, tagged `NumDocsLimit`, whose total doc count equals the cumulative
count at the crossing point (hence `≥ T`), and afterwards the workbench doc
counter holds exactly the documents accepted after that emission. -/
theorem C1_num_docs_limit_emission (cfg : IndexerConfig)
    (pre post : List ProcessedDocBatch) (bk : ProcessedDocBatch)
    (st' : Indexer) (msgs : List SerializerMsg)
    (hside : ∀ b ∈ pre ++ bk :: post,
      b.forceCommit = false ∧ ∀ d ∈ b.docs, d.memDelta = 0)
    (hheap : 0 < cfg.heapSize) (hT : 0 < cfg.splitNumDocsTarget)
    (hpre : totalDocs pre < cfg.splitNumDocsTarget)
    (hcross : cfg.splitNumDocsTarget ≤ totalDocs pre + bk.docs.length)
    (hpost : totalDocs post < cfg.splitNumDocsTarget)
    (hrun : Indexer.runBatches cfg Indexer.initial (pre ++ bk :: post) =
      .ok (st', msgs)) :
    ∃ splits delta,
      msgs = [SerializerMsg.splitBatch splits delta CommitTrigger.numDocsLimit] ∧
      cfg.splitNumDocsTarget ≤ buildersDocCount splits ∧
      buildersDocCount splits = totalDocs pre + bk.docs.length ∧
      st'.counters.numDocsInWorkbench = totalDocs post ∧
      st'.counters.numSplitBatchesEmitted = 1 := by
  have hInv0 : RunInv Indexer.initial := ⟨rfl, rfl, rfl⟩
  obtain ⟨stm, m1, m23, hrun1, hrun2, hmsgs⟩ :=
    runBatches_append cfg pre (bk :: post) Indexer.initial st' msgs hrun
  have hsidePre : ∀ b ∈ pre, b.forceCommit = false ∧ ∀ d ∈ b.docs, d.memDelta = 0 :=
    fun b hb => hside b (List.mem_append_left _ hb)
  obtain ⟨hm1, hInvM, hcM, hbM⟩ :=
    run_below cfg pre Indexer.initial stm m1 hInv0 hsidePre hheap hrun1
      (by simp [Indexer.initial]; omega)
  have hc0 : stm.counters.numDocsInWorkbench = totalDocs pre := by
    simp [Indexer.initial] at hcM
    exact hcM
  have hb0 : stm.counters.numSplitBatchesEmitted = 0 := by
    simp [Indexer.initial] at hbM
    exact hbM
  simp only [Indexer.runBatches] at hrun2
  cases hb : Indexer.index_batch cfg stm bk with
  | error e => rw [hb] at hrun2; simp at hrun2
  | ok p =>
    obtain ⟨st1, mb⟩ := p
    rw [hb] at hrun2
    dsimp only at hrun2
    cases hr : Indexer.runBatches cfg st1 post with
    | error e => rw [hr] at hrun2; simp at hrun2
    | ok q =>
      obtain ⟨st2, m3⟩ := q
      rw [hr] at hrun2
      dsimp only at hrun2
      injection hrun2 with hrun2
      have hstEq : st2 = st' := congrArg Prod.fst hrun2
      have hm23 : m23 = mb ++ m3 := (congrArg Prod.snd hrun2).symm
      subst hstEq
      obtain ⟨hbf, hbm⟩ := hside bk (List.mem_append_right _ (List.mem_cons_self _ _))
      obtain ⟨⟨splits, delta, hmb, hdc⟩, hInv1, _, hc1, hbe1⟩ :=
        step_emit cfg stm st1 bk mb hInvM hbf hbm hheap hT hb (by omega)
      obtain ⟨hm3, _, hc2, hbe2⟩ :=
        run_below cfg post st1 st2 m3 hInv1
          (fun b hbp => hside b
            (List.mem_append_right _ (List.mem_cons_of_mem _ hbp)))
          hheap hr (by omega)
      refine ⟨splits, delta, ?_, by omega, by omega, by omega, by omega⟩
      rw [hmsgs, hm1, hm23, hmb, hm3]
      rfl

/-- An example document for the C1 run. -/
def docW : ProcessedDoc :=
  { partition := 0, numBytes := 5, timestampOpt := none, memDelta := 0 }

/-- A two-document batch with an empty checkpoint delta. -/
def batch2W : ProcessedDocBatch :=
  { docs := [docW, docW], checkpointDelta := [], forceCommit := false }

/-- A one-document batch with an empty checkpoint delta. -/
def batch1W : ProcessedDocBatch :=
  { docs := [docW], checkpointDelta := [], forceCommit := false }

theorem C1_witness :
    totalDocs [batch2W] < cfgA.splitNumDocsTarget ∧
    cfgA.splitNumDocsTarget ≤ totalDocs [batch2W] + batch2W.docs.length ∧
    totalDocs [batch1W] < cfgA.splitNumDocsTarget ∧
    ∃ st' msgs,
      Indexer.runBatches cfgA Indexer.initial
        ([batch2W] ++ batch2W :: [batch1W]) = .ok (st', msgs) ∧
      ∃ splits delta,
        msgs = [SerializerMsg.splitBatch splits delta CommitTrigger.numDocsLimit] ∧
        cfgA.splitNumDocsTarget ≤ buildersDocCount splits ∧
        buildersDocCount splits = totalDocs [batch2W] + batch2W.docs.length ∧
        st'.counters.numDocsInWorkbench = totalDocs [batch1W] ∧
        st'.counters.numSplitBatchesEmitted = 1 := by
  have h := C1_num_docs_limit_emission cfgA [batch2W] [batch1W] batch2W _ _
    (by decide) (by decide) (by decide) (by decide) (by decide) (by decide) rfl
  exact ⟨by decide, by decide, by decide, _, _, rfl, h⟩

end Quickwit
